import Mathlib

/-!
# DogStatsD ingestion pipeline: tag enrichment and batching

A shallow embedding of `pkg/dogstatsd/enrich.go`, `pkg/dogstatsd/batch.go` and of
`convertTags` from `pkg/dogstatsd/convert.go`; the service-check parser, which is not
among the sources, is modelled from the specification.

Go strings are embedded as Lean strings. The two tag prefixes are ASCII, and a
tag is only sliced after `strings.HasPrefix` succeeded on it, so slicing off
`len(prefix)` bytes removes exactly the characters of the prefix.

Side effects (calls to the origin-tag supplier, to the tag catalog and to the
logger) are recorded, in order, in a list of `Call`s. A Go run-time panic is the
result `none`.
-/

namespace Dogstatsd

/-! ## Strings -/

/-- Go `strings.HasPrefix(s, pre)`. -/
def HasPrefix (s pre : String) : Bool := pre.data.isPrefixOf s.data

/-- Go slice expression `s[n:]` on a string. -/
def sliceFrom (s : String) (n : Nat) : String := ⟨s.data.drop n⟩

/-- Package variable `hostTagPrefix`. -/
def hostTagPrefix : String := "host:"

/-- Package variable `entityIDTagPrefix`. -/
def entityIDTagPrefix : String := "dd.internal.entity_id:"

/-- Package variable `entityIDIgnoreValue`. -/
def entityIDIgnoreValue : String := "none"

/-! ## The tag container -/

/-- Modelled from the spec: `util.StringSlice` is not among the sources. The spec
describes the tag container as an ordered sequence of tags, duplicates allowed,
that supports in-place filtering, truncation and append-many. `slice` is the
backing slice; `Slice()` hands out that very slice (no copy), so a later `Set`
is visible through it. -/
structure StringSlice where
  slice : List String
deriving DecidableEq, Repr

/-- Method `Slice()`: the backing slice itself. -/
def StringSlice.Slice (s : StringSlice) : List String := s.slice

/-- Method `Len()`. -/
def StringSlice.Len (s : StringSlice) : Nat := s.slice.length

/-- Method `Set(i, v)`: in-place store at index `i`; an index out of range panics. -/
def StringSlice.Set (s : StringSlice) (i : Nat) (v : String) : Option StringSlice :=
  if i < s.slice.length then some ⟨s.slice.set i v⟩ else none

/-- Method `Resize(n)`, as `enrichTags` uses it: truncate to the first `n` tags. -/
def StringSlice.Resize (s : StringSlice) (n : Nat) : StringSlice := ⟨s.slice.take n⟩

/-- Method `AppendMany(vs)`: append all of `vs`, in order, at the end. -/
def StringSlice.AppendMany (s : StringSlice) (vs : List String) : StringSlice :=
  ⟨s.slice ++ vs⟩

/-! ## `enrichTags` -/

/-- Local variables of the scanning loop of `enrichTags`, with the container. -/
structure ScanState where
  tags : StringSlice
  host : String
  entityIDValue : String
  n : Nat
deriving DecidableEq, Repr

/-- One iteration of `for _, tag := range tags.Slice()`, at read index `i`. The
range expression is evaluated once, so the number of iterations is fixed, but
the element is read from the live backing slice. -/
def enrichTagsStep (st : ScanState) (i : Nat) : Option ScanState :=
  match st.tags.Slice[i]? with
  | none => none
  | some tag =>
    if HasPrefix tag hostTagPrefix then
      some { st with host := sliceFrom tag hostTagPrefix.length }
    else if HasPrefix tag entityIDTagPrefix then
      some { st with entityIDValue := sliceFrom tag entityIDTagPrefix.length }
    else
      match st.tags.Set st.n tag with
      | none => none
      | some tags => some { st with tags := tags, n := st.n + 1 }

/-- State of `enrichTags` on entry to the loop. -/
def enrichTagsInit (tags : StringSlice) (defaultHostname : String) : ScanState :=
  { tags := tags, host := defaultHostname, entityIDValue := "", n := 0 }

/-- The first `k` iterations of the scanning loop. -/
def enrichTagsScanUpTo (tags : StringSlice) (defaultHostname : String) (k : Nat) :
    Option ScanState :=
  (List.range k).foldlM enrichTagsStep (enrichTagsInit tags defaultHostname)

/-- The whole scanning loop: one iteration per element of `tags.Slice()`. -/
def enrichTagsScan (tags : StringSlice) (defaultHostname : String) : Option ScanState :=
  enrichTagsScanUpTo tags defaultHostname tags.Slice.length

/-- The loop followed by `if n != tags.Len() { tags.Resize(n) }`: the state of
`enrichTags` before anything is appended. -/
def enrichTagsCompact (tags : StringSlice) (defaultHostname : String) : Option ScanState :=
  match enrichTagsScan tags defaultHostname with
  | none => none
  | some st =>
    if st.n != st.tags.Len then some { st with tags := st.tags.Resize st.n } else some st

/-- Modelled from the spec: `collectors.TagCardinality` is not among the sources;
the spec calls it a configured verbosity tier. It is an integer-valued level. -/
abbrev TagCardinality := Int

/-- What `enrichTags` reads from other packages: the constant
`kubelet.KubePodTaggerEntityPrefix`, the variable `tagger.DogstatsdCardinality`
and the package variable `getTags` (the catalog resolver, `tagger.Tag` unless a
test swaps it). The resolver returns a tag list and an error, `none` for `nil`. -/
structure Catalog where
  KubePodTaggerEntityPrefix : String
  DogstatsdCardinality : TagCardinality
  getTags : String → TagCardinality → List String × Option String

/-- The calls `enrichTags` makes to its collaborators, as recorded in call order. -/
inductive Call where
  | originTagsFunc
  | getTags (entity : String) (cardinality : TagCardinality)
  | Tracef (entity : String) (err : String)
deriving DecidableEq, Repr

/-- Outcome of `enrichTags`: the returned hostname, the container as the call
leaves it, and the calls made. -/
structure EnrichTagsResult where
  host : String
  tags : StringSlice
  calls : List Call
deriving DecidableEq, Repr

/-- The statement `if entityIDValue == "" || !entityIDPrecedenceEnabled
{ tags.AppendMany(originTagsFunc()) }`. -/
def enrichTagsOrigin (st : ScanState) (originTagsFunc : Unit → List String)
    (entityIDPrecedenceEnabled : Bool) : StringSlice × List Call :=
  if st.entityIDValue == "" || !entityIDPrecedenceEnabled then
    (st.tags.AppendMany (originTagsFunc ()), [Call.originTagsFunc])
  else
    (st.tags, [])

/-- The statement `if entityIDValue != "" && entityIDValue != entityIDIgnoreValue
{ ... }`: the catalog lookup, run on the container and call log `cur`. -/
def enrichTagsEntity (env : Catalog) (st : ScanState) (cur : StringSlice × List Call) :
    StringSlice × List Call :=
  if st.entityIDValue != "" && st.entityIDValue != entityIDIgnoreValue then
    let entity := env.KubePodTaggerEntityPrefix ++ st.entityIDValue
    match env.getTags entity env.DogstatsdCardinality with
    | (_, some err) =>
      (cur.1, cur.2 ++ [Call.getTags entity env.DogstatsdCardinality, Call.Tracef entity err])
    | (entityTags, none) =>
      (cur.1.AppendMany entityTags, cur.2 ++ [Call.getTags entity env.DogstatsdCardinality])
  else
    cur

/-- Function `enrichTags`. -/
def enrichTags (env : Catalog) (tags : StringSlice) (defaultHostname : String)
    (originTagsFunc : Unit → List String) (entityIDPrecedenceEnabled : Bool) :
    Option EnrichTagsResult :=
  match enrichTagsCompact tags defaultHostname with
  | none => none
  | some st =>
    let fin := enrichTagsEntity env st (enrichTagsOrigin st originTagsFunc entityIDPrecedenceEnabled)
    some { host := st.host, tags := fin.1, calls := fin.2 }

/-! ## `enrichMetricSample` -/

/-- Modelled from the spec: the wire metric kinds `metricType` (declared in the
parser, not among the sources): gauge, counter, distribution, histogram, set,
timing. -/
inductive metricType where
  | gaugeType | countType | distributionType | histogramType | setType | timingType
deriving DecidableEq, Repr

/-- The constants of `metrics.MetricType` that `enrich.go` names. -/
inductive MetricType where
  | GaugeType | CounterType | DistributionType | HistogramType | SetType
deriving DecidableEq, Repr

/-- A `float64` that is only copied, never computed on: its bit pattern. -/
structure float64 where
  bits : Nat
deriving DecidableEq, Repr

/-- The fields of the parsed record `dogstatsdMetricSample` that `enrich.go`
reads. `tags` is a pointer in Go: the container is shared with the caller. -/
structure dogstatsdMetricSample where
  name : String
  value : float64
  setValue : String
  metricType : metricType
  sampleRate : float64
  tags : StringSlice
deriving DecidableEq, Repr

/-- The fields of the domain record `metrics.MetricSample` that `enrich.go` sets.
`Tags` is the parsed record's container itself (same pointer). -/
structure MetricSample where
  Host : String
  Name : String
  Tags : StringSlice
  Mtype : MetricType
  Value : float64
  SampleRate : float64
  RawValue : String
deriving DecidableEq, Repr

/-- Function `enrichMetricType`. -/
def enrichMetricType (dogstatsdMetricType : metricType) : MetricType :=
  match dogstatsdMetricType with
  | .gaugeType => .GaugeType
  | .countType => .CounterType
  | .distributionType => .DistributionType
  | .histogramType => .HistogramType
  | .setType => .SetType
  | .timingType => .HistogramType

/-- Function `isBlacklisted`. -/
def isBlacklisted (metricName ns : String) (namespaceBlacklist : List String) : Bool :=
  if ns != "" then
    namespaceBlacklist.any fun pre => HasPrefix metricName pre
  else
    false

/-- Function `enrichMetricSample`: the domain record and the calls made. -/
def enrichMetricSample (env : Catalog) (metricSample : dogstatsdMetricSample) (ns : String)
    (namespaceBlacklist : List String) (defaultHostname : String)
    (originTagsFunc : Unit → List String) (entityIDPrecedenceEnabled : Bool) :
    Option (MetricSample × List Call) :=
  match enrichTags env metricSample.tags defaultHostname originTagsFunc
      entityIDPrecedenceEnabled with
  | none => none
  | some r =>
    let metricName :=
      if !isBlacklisted metricSample.name ns namespaceBlacklist then ns ++ metricSample.name
      else metricSample.name
    some ({ Host := r.host
            Name := metricName
            Tags := r.tags
            Mtype := enrichMetricType metricSample.metricType
            Value := metricSample.value
            SampleRate := metricSample.sampleRate
            RawValue := metricSample.setValue }, r.calls)

/-- The parsed record as a conversion leaves it: the same record, whose shared
tag container now holds what the conversion wrote into it. The domain record the
conversion returned holds that same container: `enrichMetricSampleTwice` carries a
later change of the container back into it. -/
def recordAfter (metricSample : dogstatsdMetricSample) (converted : MetricSample) :
    dogstatsdMetricSample :=
  { metricSample with tags := converted.Tags }

/-- Two conversions of the same parsed record in a row, the second one on the record
as the first one left it, and the two domain records as they stand afterwards. Both
records hold the same `*util.StringSlice` (`Tags: metricSample.tags`), so the `Tags`
of the first record read the container as the second conversion left it; the other
fields of the first record are values and keep what the first conversion set. -/
def enrichMetricSampleTwice (env : Catalog) (metricSample : dogstatsdMetricSample)
    (ns : String) (namespaceBlacklist : List String) (defaultHostname : String)
    (originTagsFunc : Unit → List String) (entityIDPrecedenceEnabled : Bool) :
    Option (MetricSample × MetricSample) :=
  match enrichMetricSample env metricSample ns namespaceBlacklist defaultHostname
      originTagsFunc entityIDPrecedenceEnabled with
  | none => none
  | some (first, _) =>
    match enrichMetricSample env (recordAfter metricSample first) ns namespaceBlacklist
        defaultHostname originTagsFunc entityIDPrecedenceEnabled with
    | none => none
    | some (second, _) => some ({ first with Tags := second.Tags }, second)

/-! ## The batcher -/

/-- The constants of `metrics.EventPriority` that `enrich.go` names. -/
inductive EventPriority where
  | EventPriorityNormal | EventPriorityLow
deriving DecidableEq, Repr

/-- The constants of `metrics.EventAlertType` that `enrich.go` names. -/
inductive EventAlertType where
  | EventAlertTypeSuccess | EventAlertTypeInfo | EventAlertTypeWarning | EventAlertTypeError
deriving DecidableEq, Repr

/-- The constants of `metrics.ServiceCheckStatus` that `enrich.go` names. -/
inductive ServiceCheckStatus where
  | ServiceCheckOK | ServiceCheckWarning | ServiceCheckCritical | ServiceCheckUnknown
deriving DecidableEq, Repr

/-- The fields of the domain record `metrics.Event` that the package sets. -/
structure Event where
  Title : String
  Text : String
  Ts : Int
  Priority : EventPriority
  Host : String
  Tags : List String
  AlertType : EventAlertType
  AggregationKey : String
  SourceTypeName : String
deriving DecidableEq, Repr

/-- The fields of the domain record `metrics.ServiceCheck` that the package sets. -/
structure ServiceCheck where
  CheckName : String
  Host : String
  Ts : Int
  Status : ServiceCheckStatus
  Message : String
  Tags : List String
deriving DecidableEq, Repr

/-! ## `enrichEvent` and `enrichServiceCheck` -/

/-- Modelled from the spec: the wire event priorities `eventPriority` (declared in
the parser, not among the sources): normal, low. -/
inductive eventPriority where
  | priorityNormal | priorityLow
deriving DecidableEq, Repr

/-- Modelled from the spec: the wire alert types `alertType` (declared in the
parser, not among the sources): success, info, warning, error. -/
inductive alertType where
  | alertTypeSuccess | alertTypeInfo | alertTypeWarning | alertTypeError
deriving DecidableEq, Repr

/-- Modelled from the spec: the wire service-check statuses `serviceCheckStatus`
(declared in the parser, not among the sources): unknown, ok, warning, critical. -/
inductive serviceCheckStatus where
  | serviceCheckStatusUnknown | serviceCheckStatusOk | serviceCheckStatusWarning
  | serviceCheckStatusCritical
deriving DecidableEq, Repr

/-- The fields of the parsed record `dogstatsdEvent` that the package reads. -/
structure dogstatsdEvent where
  title : String
  text : String
  timestamp : Int
  hostname : String
  aggregationKey : String
  priority : eventPriority
  sourceType : String
  alertType : alertType
  tags : StringSlice
deriving DecidableEq, Repr

/-- The fields of the parsed record `dogstatsdServiceCheck` that the package reads. -/
structure dogstatsdServiceCheck where
  name : String
  timestamp : Int
  hostname : String
  status : serviceCheckStatus
  message : String
  tags : StringSlice
deriving DecidableEq, Repr

/-- Function `enrichEventPriority`. -/
def enrichEventPriority (priority : eventPriority) : EventPriority :=
  match priority with
  | .priorityNormal => .EventPriorityNormal
  | .priorityLow => .EventPriorityLow

/-- Function `enrichEventAlertType`. -/
def enrichEventAlertType (dogstatsdAlertType : alertType) : EventAlertType :=
  match dogstatsdAlertType with
  | .alertTypeSuccess => .EventAlertTypeSuccess
  | .alertTypeInfo => .EventAlertTypeInfo
  | .alertTypeWarning => .EventAlertTypeWarning
  | .alertTypeError => .EventAlertTypeError

/-- Function `enrichEvent`. The call to `enrichTags` and the assignments of `Tags`
and of `Host` from the tags are commented out in the source, so `Tags` keeps its
zero value and `Host` is only set from the hostname override. -/
def enrichEvent (event : dogstatsdEvent) (_defaultHostname : String)
    (_originTagsFunc : Unit → List String) (_entityIDPrecedenceEnabled : Bool) : Event :=
  let enrichedEvent : Event :=
    { Title := event.title
      Text := event.text
      Ts := event.timestamp
      Priority := enrichEventPriority event.priority
      Host := ""
      Tags := []
      AlertType := enrichEventAlertType event.alertType
      AggregationKey := event.aggregationKey
      SourceTypeName := event.sourceType }
  if event.hostname.length != 0 then
    { enrichedEvent with Host := event.hostname }
  else
    enrichedEvent

/-- Function `enrichServiceCheckStatus`. -/
def enrichServiceCheckStatus (status : serviceCheckStatus) : ServiceCheckStatus :=
  match status with
  | .serviceCheckStatusUnknown => .ServiceCheckUnknown
  | .serviceCheckStatusOk => .ServiceCheckOK
  | .serviceCheckStatusWarning => .ServiceCheckWarning
  | .serviceCheckStatusCritical => .ServiceCheckCritical

/-- Function `enrichServiceCheck`. As in `enrichEvent`, the tag enrichment is
commented out in the source. -/
def enrichServiceCheck (serviceCheck : dogstatsdServiceCheck) (_defaultHostname : String)
    (_originTagsFunc : Unit → List String) (_entityIDPrecedenceEnabled : Bool) :
    ServiceCheck :=
  let enrichedServiceCheck : ServiceCheck :=
    { CheckName := serviceCheck.name
      Host := ""
      Ts := serviceCheck.timestamp
      Status := enrichServiceCheckStatus serviceCheck.status
      Message := serviceCheck.message
      Tags := [] }
  if serviceCheck.hostname.length != 0 then
    { enrichedServiceCheck with Host := serviceCheck.hostname }
  else
    enrichedServiceCheck

/-- Modelled from the spec: `metrics.GlobalMetricSamplePool` is not among the
sources. The spec describes it as a shared pool from which a fresh batch buffer
is drawn on flush. `batches k` is the buffer handed out by the `k`-th call of
`GetBatch()` (a recycled buffer, whose content is arbitrary), `taken` the number
of calls made so far. -/
structure MetricSamplePool where
  batches : Nat → List MetricSample
  taken : Nat

/-- Method `GetBatch()`: the next buffer, and the pool after the call. -/
def MetricSamplePool.GetBatch (pool : MetricSamplePool) :
    List MetricSample × MetricSamplePool :=
  (pool.batches pool.taken, { pool with taken := pool.taken + 1 })

/-- The struct `batcher` together with the collaborators it acts on. `samples`,
`samplesCount`, `events` and `serviceChecks` are the struct's own fields.
`shardedAgg` is the sink: the batches received by `PushSamples`, in push order.
`choutEvents` and `choutServiceChecks` are the groups sent on the two channels,
in send order. `GlobalMetricSamplePool` is the package-level pool. -/
structure batcher where
  samples : List MetricSample
  samplesCount : Nat
  events : List Event
  serviceChecks : List ServiceCheck
  shardedAgg : List (List MetricSample)
  choutEvents : List (List Event)
  choutServiceChecks : List (List ServiceCheck)
  GlobalMetricSamplePool : MetricSamplePool

/-- Function `newBatcher`, on a sink and channels that have received nothing yet. -/
def newBatcher (pool : MetricSamplePool) : batcher :=
  { samples := pool.GetBatch.1
    samplesCount := 0
    events := []
    serviceChecks := []
    shardedAgg := []
    choutEvents := []
    choutServiceChecks := []
    GlobalMetricSamplePool := pool.GetBatch.2 }

/-- Method `flushSamples`. The slice expression `b.samples[:b.samplesCount]`
panics when `samplesCount` exceeds the length of the buffer. -/
def batcher.flushSamples (b : batcher) : Option batcher :=
  if b.samplesCount > 0 then
    if b.samplesCount ≤ b.samples.length then
      some { b with
        shardedAgg := b.shardedAgg ++ [b.samples.take b.samplesCount]
        samplesCount := 0
        samples := b.GlobalMetricSamplePool.GetBatch.1
        GlobalMetricSamplePool := b.GlobalMetricSamplePool.GetBatch.2 }
    else none
  else some b

/-- Method `appendSample`. The store `b.samples[b.samplesCount] = sample` panics
when the index is out of range. -/
def batcher.appendSample (b : batcher) (sample : MetricSample) : Option batcher :=
  match (if b.samplesCount = b.samples.length then b.flushSamples else some b) with
  | none => none
  | some b1 =>
    if b1.samplesCount < b1.samples.length then
      some { b1 with
        samples := b1.samples.set b1.samplesCount sample
        samplesCount := b1.samplesCount + 1 }
    else none

/-- Method `appendEvent`. -/
def batcher.appendEvent (b : batcher) (event : Event) : batcher :=
  { b with events := b.events ++ [event] }

/-- Method `appendServiceCheck`. -/
def batcher.appendServiceCheck (b : batcher) (serviceCheck : ServiceCheck) : batcher :=
  { b with serviceChecks := b.serviceChecks ++ [serviceCheck] }

/-- Method `flush`. -/
def batcher.flush (b : batcher) : Option batcher :=
  match b.flushSamples with
  | none => none
  | some b1 =>
    let b2 :=
      if b1.events.length > 0 then
        { b1 with choutEvents := b1.choutEvents ++ [b1.events], events := [] }
      else b1
    let b3 :=
      if b2.serviceChecks.length > 0 then
        { b2 with
          choutServiceChecks := b2.choutServiceChecks ++ [b2.serviceChecks]
          serviceChecks := [] }
      else b2
    some b3

/-- A sequence of `appendSample` calls, in order. -/
def batcher.appendSamples (b : batcher) (samples : List MetricSample) : Option batcher :=
  samples.foldlM batcher.appendSample b

/-! ## `convertTags` -/

/-- The two backing arrays `convertTags` can reach: the one behind the caller's
`tags` slice, and the one the call allocates (by `make`, or by an `append` that
has to reallocate). -/
inductive Backing where
  | caller | fresh
deriving DecidableEq, Repr

/-- A Go slice header: the array it points into, at offset 0, and its length. Its
capacity is the length of that array. -/
structure SliceHeader where
  backing : Backing
  len : Nat
deriving DecidableEq, Repr

/-- The memory `convertTags` works on: the content of the two arrays. -/
structure TagMemory where
  caller : List String
  fresh : List String
deriving DecidableEq, Repr

/-- The array behind a slice. -/
def TagMemory.array (m : TagMemory) : Backing → List String
  | .caller => m.caller
  | .fresh => m.fresh

/-- Replace the content of one array. -/
def TagMemory.setArray (m : TagMemory) (b : Backing) (a : List String) : TagMemory :=
  match b with
  | .caller => { m with caller := a }
  | .fresh => { m with fresh := a }

/-- The elements of a slice, read from memory. -/
def TagMemory.elems (m : TagMemory) (s : SliceHeader) : List String :=
  (m.array s.backing).take s.len

/-- The store `s[i] = v`, written through the slice into its array; an index out of
range panics. -/
def TagMemory.store (m : TagMemory) (s : SliceHeader) (i : Nat) (v : String) :
    Option TagMemory :=
  if i < s.len then some (m.setArray s.backing ((m.array s.backing).set i v)) else none

/-- Go `append(s, vs...)`: when the capacity suffices the values are written in place,
right after the elements of `s`; otherwise they go, after a copy of the elements of
`s`, into a newly allocated array. -/
def TagMemory.append (m : TagMemory) (s : SliceHeader) (vs : List String) :
    TagMemory × SliceHeader :=
  if s.len + vs.length ≤ (m.array s.backing).length then
    (m.setArray s.backing
      ((m.array s.backing).take s.len ++ vs ++ (m.array s.backing).drop (s.len + vs.length)),
     ⟨s.backing, s.len + vs.length⟩)
  else
    ({ m with fresh := m.elems s ++ vs }, ⟨.fresh, s.len + vs.length⟩)

/-- Local variables of the first loop of `convertTags`, with the calls made. -/
structure ConvertScan where
  host : String
  needReslice : Bool
  extraTags : List String
  calls : List Call
deriving DecidableEq, Repr

/-- One iteration of the first loop of `convertTags`. -/
def convertTagsScanStep (env : Catalog) (st : ConvertScan) (tag : String) : ConvertScan :=
  if HasPrefix tag hostTagPrefix then
    { st with needReslice := true, host := sliceFrom tag hostTagPrefix.length }
  else if HasPrefix tag entityIDTagPrefix then
    let entity := env.KubePodTaggerEntityPrefix ++ sliceFrom tag entityIDTagPrefix.length
    match env.getTags entity env.DogstatsdCardinality with
    | (_, some err) =>
      { st with
        needReslice := true
        calls := st.calls ++
          [Call.getTags entity env.DogstatsdCardinality, Call.Tracef entity err] }
    | (entityTags, none) =>
      { st with
        needReslice := true
        extraTags := st.extraTags ++ entityTags
        calls := st.calls ++ [Call.getTags entity env.DogstatsdCardinality] }
  else
    st

/-- The first loop of `convertTags`, over the elements of `tags`. -/
def convertTagsScan (env : Catalog) (tags : List String) (defaultHostname : String) :
    ConvertScan :=
  tags.foldl (convertTagsScanStep env)
    { host := defaultHostname, needReslice := false, extraTags := [], calls := [] }

/-- One iteration of the second loop of `convertTags`, at read index `i`: the tag is
read through `tags` from the live memory and, when kept, stored through `tagsList` at
index `tagsCount`. The state is the memory and `tagsCount`. -/
def convertTagsCopyStep (tags tagsList : SliceHeader) (st : TagMemory × Nat) (i : Nat) :
    Option (TagMemory × Nat) :=
  match (st.1.elems tags)[i]? with
  | none => none
  | some tag =>
    if !HasPrefix tag hostTagPrefix && !HasPrefix tag entityIDTagPrefix then
      match st.1.store tagsList st.2 tag with
      | none => none
      | some m => some (m, st.2 + 1)
    else
      some st

/-- The first `k` iterations of the second loop of `convertTags`. -/
def convertTagsCopyUpTo (tags tagsList : SliceHeader) (m : TagMemory) (k : Nat) :
    Option (TagMemory × Nat) :=
  (List.range k).foldlM (convertTagsCopyStep tags tagsList) (m, 0)

/-- Outcome of `convertTags`: the memory after the call, the returned slice (`none`
for `nil`), the returned hostname and the calls made. -/
structure ConvertTagsResult where
  mem : TagMemory
  tagsList : Option SliceHeader
  host : String
  calls : List Call
deriving DecidableEq, Repr

/-- Function `convertTags`, called with the slice `tags = caller[:n]`, where `caller`
is the array behind the caller's slice. -/
def convertTags (env : Catalog) (caller : List String) (n : Nat) (defaultHostname : String) :
    Option ConvertTagsResult :=
  let mem : TagMemory := { caller := caller, fresh := [] }
  let tags : SliceHeader := ⟨.caller, n⟩
  if n = 0 then
    some { mem := mem, tagsList := none, host := defaultHostname, calls := [] }
  else
    let scan := convertTagsScan env (mem.elems tags) defaultHostname
    if scan.needReslice then
      let size := n + scan.extraTags.length
      let tagsList : SliceHeader := ⟨.fresh, size⟩
      match convertTagsCopyUpTo tags tagsList { mem with fresh := List.replicate size "" } n with
      | none => none
      | some (mem2, tagsCount) =>
        if tagsCount ≤ size then
          let r := mem2.append ⟨.fresh, tagsCount⟩ scan.extraTags
          some { mem := r.1, tagsList := some r.2, host := scan.host, calls := scan.calls }
        else none
    else
      let r := mem.append tags scan.extraTags
      some { mem := r.1, tagsList := some r.2, host := scan.host, calls := scan.calls }

/-- The tag sequence `convertTags` returns: the elements of the returned slice, `nil`
counting as the empty sequence. -/
def ConvertTagsResult.tags (r : ConvertTagsResult) : List String :=
  match r.tagsList with
  | none => []
  | some s => r.mem.elems s

/-! ## `parseServiceCheck` -/

/-- Modelled from the spec: the parser is not among the sources. Splitting of a
message at every occurrence of a separator character; the grammar of the
specification separates the fields of a message with `|` and the tags with `,`. -/
def splitAt (sep : Char) : List Char → List (List Char)
  | [] => [[]]
  | c :: cs =>
    if c = sep then [] :: splitAt sep cs
    else
      match splitAt sep cs with
      | [] => [[c]]
      | seg :: segs => (c :: seg) :: segs

/-- Modelled from the spec: the parser is not among the sources. A non-empty sequence
of decimal digits, as a number; anything else is non-numeric. -/
def parseDigits (cs : List Char) : Option Nat :=
  if cs ≠ [] ∧ cs.all Char.isDigit then
    some (cs.foldl (fun n c => 10 * n + (c.toNat - '0'.toNat)) 0)
  else none

/-- Modelled from the spec: the parser is not among the sources. An integer field: an
optional sign followed by decimal digits; anything else is non-numeric. -/
def parseInt (s : String) : Option Int :=
  match s.data with
  | '-' :: ds => (parseDigits ds).map fun n => -(n : Int)
  | '+' :: ds => (parseDigits ds).map fun n => (n : Int)
  | ds => (parseDigits ds).map fun n => (n : Int)

/-- Modelled from the spec: the parser is not among the sources. The status field
"must parse to one of {0,1,2,3}; any other integer or non-numeric value is a parse
error": 0 is ok, 1 warning, 2 critical and 3 unknown. -/
def parseServiceCheckStatus (rawStatus : String) : Option serviceCheckStatus :=
  match parseInt rawStatus with
  | some 0 => some .serviceCheckStatusOk
  | some 1 => some .serviceCheckStatusWarning
  | some 2 => some .serviceCheckStatusCritical
  | some 3 => some .serviceCheckStatusUnknown
  | _ => none

/-- Modelled from the spec: the parser is not among the sources. One metadata segment
of a service check, `d:timestamp`, `h:hostname`, `#tags` or `m:message`: a repeated
segment overwrites the earlier one, an unknown prefix is ignored, and so is a timestamp
that does not parse. -/
def applyServiceCheckMetadata (sc : dogstatsdServiceCheck) (seg : String) :
    dogstatsdServiceCheck :=
  if HasPrefix seg "d:" then
    match parseInt (sliceFrom seg 2) with
    | some ts => { sc with timestamp := ts }
    | none => sc
  else if HasPrefix seg "h:" then
    { sc with hostname := sliceFrom seg 2 }
  else if HasPrefix seg "#" then
    { sc with tags := ⟨(splitAt ',' (sliceFrom seg 1).data).map String.mk⟩ }
  else if HasPrefix seg "m:" then
    { sc with message := sliceFrom seg 2 }
  else
    sc

/-- Modelled from the spec: the parser is not among the sources. A service check from
the `|`-separated segments of a message, after the grammar
`_sc|name|status[|d:timestamp][|h:hostname][|#tags][|m:message]`: a missing or empty
name and a missing or invalid status are parse errors. -/
def parseServiceCheckSegments : List String → Except String dogstatsdServiceCheck
  | "_sc" :: name :: rawStatus :: metadata =>
    if name = "" then .error "invalid dogstatsd service check format: empty name"
    else
      match parseServiceCheckStatus rawStatus with
      | none => .error "invalid dogstatsd service check status"
      | some status =>
        .ok (metadata.foldl applyServiceCheckMetadata
          { name := name, timestamp := 0, hostname := "", status := status, message := "",
            tags := ⟨[]⟩ })
  | _ => .error "invalid dogstatsd service check format"

/-- Modelled from the spec: the parser is not among the sources. Function
`parseServiceCheck`, on one message. -/
def parseServiceCheck (message : String) : Except String dogstatsdServiceCheck :=
  parseServiceCheckSegments ((splitAt '|' message.data).map String.mk)

/-- Whether a parse returned an error, and so no record. -/
def isParseError (r : Except String dogstatsdServiceCheck) : Bool :=
  match r with
  | .error _ => true
  | .ok _ => false

/-! ## Reference definitions, in the words of the specification -/

/-- The tags that begin with neither `host:` nor `dd.internal.entity_id:`, in
their original relative order. -/
def retainedTags (tags : List String) : List String :=
  tags.filter fun t => !HasPrefix t hostTagPrefix && !HasPrefix t entityIDTagPrefix

/-- The text following `host:` in the last tag that starts with `host:`, and the
default hostname when there is no such tag. -/
def lastHostValue (tags : List String) (defaultHostname : String) : String :=
  match (tags.filter fun t => HasPrefix t hostTagPrefix).getLast? with
  | some t => sliceFrom t hostTagPrefix.length
  | none => defaultHostname

/-- The text following `dd.internal.entity_id:` in the last tag that starts with
it, and the empty string when there is no such tag. -/
def lastEntityIDValue (tags : List String) : String :=
  match (tags.filter fun t => HasPrefix t entityIDTagPrefix).getLast? with
  | some t => sliceFrom t entityIDTagPrefix.length
  | none => ""

/-- The origin tags as step 3 of the specification adds them: all of the
supplier's tags when no entity-id value was captured or entity-id precedence is
disabled, none otherwise. -/
def originPart (tags : List String) (originTagsFunc : Unit → List String)
    (entityIDPrecedenceEnabled : Bool) : List String :=
  if lastEntityIDValue tags = "" ∨ entityIDPrecedenceEnabled = false then originTagsFunc ()
  else []

/-- The catalog-resolved tags as step 4 of the specification adds them: for a
captured entity-id value `v` that is neither empty nor `none`, the tags the
catalog returns for the pod entity of `v` when the lookup succeeds. -/
def catalogTags (env : Catalog) (v : String) : List String :=
  if v = "" ∨ v = entityIDIgnoreValue then []
  else
    match env.getTags (env.KubePodTaggerEntityPrefix ++ v) env.DogstatsdCardinality with
    | (ts, none) => ts
    | (_, some _) => []

/-- Whether a recorded call is a catalog lookup. -/
def Call.isGetTags : Call → Bool
  | .getTags _ _ => true
  | _ => false

/-- The calls `enrichTags` is expected to make on a container holding `tags`. -/
def expectedCalls (env : Catalog) (tags : List String) (entityIDPrecedenceEnabled : Bool) :
    List Call :=
  (if lastEntityIDValue tags = "" ∨ entityIDPrecedenceEnabled = false
    then [Call.originTagsFunc] else []) ++
  (if lastEntityIDValue tags = "" ∨ lastEntityIDValue tags = entityIDIgnoreValue then []
   else
    let entity := env.KubePodTaggerEntityPrefix ++ lastEntityIDValue tags
    match (env.getTags entity env.DogstatsdCardinality).2 with
    | none => [Call.getTags entity env.DogstatsdCardinality]
    | some err => [Call.getTags entity env.DogstatsdCardinality, Call.Tracef entity err])

/-! ## Concrete inputs used to evaluate the definitions -/

/-- A catalog that knows one pod, `pod-1`, and fails on every other entity. -/
def sampleCatalog : Catalog :=
  { KubePodTaggerEntityPrefix := "kubernetes_pod_uid://"
    DogstatsdCardinality := 1
    getTags := fun entity _ =>
      if entity = "kubernetes_pod_uid://pod-1" then (["pod_name:web", "kube_namespace:default"], none)
      else ([], some "entity not found") }

/-- An origin-tag supplier that returns one container tag. -/
def sampleOrigin : Unit → List String := fun _ => ["container_name:app"]

/-- A parsed histogram sample with a `host:` tag. -/
def sampleMetric : dogstatsdMetricSample :=
  { name := "daemon"
    value := ⟨666⟩
    setValue := ""
    metricType := .histogramType
    sampleRate := ⟨1⟩
    tags := ⟨["host:h", "env:prod"]⟩ }

/-- A parsed gauge sample whose tags carry neither a `host:` nor an entity-id tag. -/
def plainMetric : dogstatsdMetricSample :=
  { name := "daemon"
    value := ⟨666⟩
    setValue := ""
    metricType := .gaugeType
    sampleRate := ⟨1⟩
    tags := ⟨["sometag1:somevalue1", "sometag2:somevalue2"]⟩ }

/-- A pool whose buffers all hold two stale samples. -/
def samplePool : MetricSamplePool :=
  { batches := fun _ =>
      [{ Host := "", Name := "stale", Tags := ⟨[]⟩, Mtype := .GaugeType, Value := ⟨0⟩,
         SampleRate := ⟨0⟩, RawValue := "" },
       { Host := "", Name := "stale", Tags := ⟨[]⟩, Mtype := .GaugeType, Value := ⟨0⟩,
         SampleRate := ⟨0⟩, RawValue := "" }]
    taken := 0 }

/-- A converted sample named `name`. -/
def sampleNamed (name : String) : MetricSample :=
  { Host := "default", Name := name, Tags := ⟨[]⟩, Mtype := .GaugeType, Value := ⟨1⟩,
    SampleRate := ⟨1⟩, RawValue := "" }

/-- A batcher on buffers of capacity two whose buffer is full. -/
def fullBatcher : batcher :=
  { samples := [sampleNamed "a", sampleNamed "b"]
    samplesCount := 2
    events := []
    serviceChecks := []
    shardedAgg := []
    choutEvents := []
    choutServiceChecks := []
    GlobalMetricSamplePool := samplePool }

/-- A batcher on buffers of capacity two with one pending sample. -/
def halfBatcher : batcher :=
  { samples := [sampleNamed "a", sampleNamed "stale"]
    samplesCount := 1
    events := []
    serviceChecks := []
    shardedAgg := []
    choutEvents := []
    choutServiceChecks := []
    GlobalMetricSamplePool := samplePool }

/-- An event titled `title`, with no host and no tags. -/
def eventTitled (title : String) : Event :=
  { Title := title, Text := "", Ts := 0, Priority := .EventPriorityNormal, Host := "",
    Tags := [], AlertType := .EventAlertTypeInfo, AggregationKey := "", SourceTypeName := "" }

/-- A service check named `name`, with no host and no tags. -/
def checkNamed (name : String) : ServiceCheck :=
  { CheckName := name, Host := "", Ts := 0, Status := .ServiceCheckOK, Message := "",
    Tags := [] }

/-- The half-full batcher with two buffered events and no buffered service check. -/
def eventfulBatcher : batcher :=
  { halfBatcher with events := [eventTitled "e1", eventTitled "e2"] }

/-- The parsed form of `daemon:666|h|@0.5|#sometag1:somevalue1,sometag2:somevalue2`:
a histogram sample named `daemon`, with value 666 and sample rate 0.5 (as IEEE-754
bit patterns) and two tags. -/
def daemonSample : dogstatsdMetricSample :=
  { name := "daemon"
    value := ⟨0x4084D00000000000⟩
    setValue := ""
    metricType := .histogramType
    sampleRate := ⟨0x3FE0000000000000⟩
    tags := ⟨["sometag1:somevalue1", "sometag2:somevalue2"]⟩ }

/-- The parsed form of `_e{5,4}:title|text|d:21|h:localhost|p:low|t:warning`. -/
def localhostEvent : dogstatsdEvent :=
  { title := "title"
    text := "text"
    timestamp := 21
    hostname := "localhost"
    aggregationKey := ""
    priority := .priorityLow
    sourceType := ""
    alertType := .alertTypeWarning
    tags := ⟨[]⟩ }

/-- A parsed event without hostname override, carrying a `host:` tag. -/
def hostTaggedEvent : dogstatsdEvent :=
  { title := "title"
    text := "text"
    timestamp := 21
    hostname := ""
    aggregationKey := ""
    priority := .priorityNormal
    sourceType := ""
    alertType := .alertTypeInfo
    tags := ⟨["host:h", "env:prod"]⟩ }

/-- A parsed service check without hostname override, carrying a `host:` tag. -/
def hostTaggedCheck : dogstatsdServiceCheck :=
  { name := "agent.up"
    timestamp := 21
    hostname := ""
    status := .serviceCheckStatusOk
    message := ""
    tags := ⟨["host:h", "env:prod"]⟩ }

/-- The parsed form of `_sc|agent.up|0|d:21|h:localhost|#tag1:test,tag2|m:this is fine`. -/
def localhostCheck : dogstatsdServiceCheck :=
  { name := "agent.up"
    timestamp := 21
    hostname := "localhost"
    status := .serviceCheckStatusOk
    message := "this is fine"
    tags := ⟨["tag1:test", "tag2"]⟩ }

/-- The operations a caller can run on a batcher. -/
inductive BatcherOp where
  | appendSample (sample : MetricSample)
  | appendEvent (event : Event)
  | appendServiceCheck (serviceCheck : ServiceCheck)
  | flushSamples
  | flush

/-- One operation on a batcher; `none` when it panics. -/
def batcher.apply (b : batcher) : BatcherOp → Option batcher
  | .appendSample sample => b.appendSample sample
  | .appendEvent event => some (b.appendEvent event)
  | .appendServiceCheck serviceCheck => some (b.appendServiceCheck serviceCheck)
  | .flushSamples => b.flushSamples
  | .flush => b.flush

/-- A sequence of operations on a batcher, in order. -/
def batcher.run (b : batcher) (ops : List BatcherOp) : Option batcher :=
  ops.foldlM batcher.apply b

/-- A pool configured with batch size zero: every buffer is empty. -/
def emptyPool : MetricSamplePool :=
  { batches := fun _ => [], taken := 0 }

/-- Every batch the sink has received has between 1 and `N` samples. -/
def batcher.batchesWithin (N : Nat) (b : batcher) : Prop :=
  ∀ batch ∈ b.shardedAgg, 1 ≤ batch.length ∧ batch.length ≤ N

/-- A parsed gauge sample with a plain tag and an entity-id tag for the pod the sample
catalog knows. -/
def podMetric : dogstatsdMetricSample :=
  { name := "daemon"
    value := ⟨666⟩
    setValue := ""
    metricType := .gaugeType
    sampleRate := ⟨1⟩
    tags := ⟨["env:prod", "dd.internal.entity_id:pod-1"]⟩ }

/-- Loop invariant of `enrichTags` after `k` iterations. -/
structure ScanInv (tags : StringSlice) (d : String) (k : Nat) (st : ScanState) : Prop where
  n_le : st.n ≤ k
  n_eq : st.n = (retainedTags (tags.slice.take k)).length
  kept : st.tags.slice.take st.n = retainedTags (tags.slice.take k)
  unread : st.tags.slice.drop k = tags.slice.drop k
  len_eq : st.tags.slice.length = tags.slice.length
  host_eq : st.host = lastHostValue (tags.slice.take k) d
  entity_eq : st.entityIDValue = lastEntityIDValue (tags.slice.take k)

/-- Invariant of a batcher whose pooled buffers all have length `N`. -/
structure BatcherInv (N : Nat) (b : batcher) : Prop where
  len_eq : b.samples.length = N
  count_le : b.samplesCount ≤ N
  pool_len : ∀ k, (b.GlobalMetricSamplePool.batches k).length = N

/-- The samples a batcher has taken in, in order: those already pushed to the sink
followed by those pending in the current buffer. -/
def batcher.taken (b : batcher) : List MetricSample :=
  b.shardedAgg.flatten ++ b.samples.take b.samplesCount

/-! ## Lemmas on the scanning loop -/

theorem hasPrefix_host_not_entityID (t : String) (h : HasPrefix t hostTagPrefix = true) :
    HasPrefix t entityIDTagPrefix = false := by
  obtain ⟨cs⟩ := t
  cases cs with
  | nil => simp [HasPrefix, hostTagPrefix] at h
  | cons c cs =>
    have hc : c = 'h' := by
      simp [HasPrefix, hostTagPrefix] at h
      exact h.1.symm
    subst hc
    simp [HasPrefix, entityIDTagPrefix, List.isPrefixOf]

theorem retainedTags_append (xs ys : List String) :
    retainedTags (xs ++ ys) = retainedTags xs ++ retainedTags ys := by
  simp [retainedTags]

theorem lastHostValue_concat (xs : List String) (t d : String) :
    lastHostValue (xs ++ [t]) d =
      if HasPrefix t hostTagPrefix then sliceFrom t hostTagPrefix.length
      else lastHostValue xs d := by
  by_cases h : HasPrefix t hostTagPrefix = true
  · simp [lastHostValue, List.filter_append, h]
  · simp [lastHostValue, List.filter_append, h]

theorem lastEntityIDValue_concat (xs : List String) (t : String) :
    lastEntityIDValue (xs ++ [t]) =
      if HasPrefix t entityIDTagPrefix then sliceFrom t entityIDTagPrefix.length
      else lastEntityIDValue xs := by
  by_cases h : HasPrefix t entityIDTagPrefix = true
  · simp [lastEntityIDValue, List.filter_append, h]
  · simp [lastEntityIDValue, List.filter_append, h]

theorem getElem?_of_drop_eq {α : Type} (l l' : List α) (k : Nat)
    (h : l.drop k = l'.drop k) : l[k]? = l'[k]? := by
  have h1 : (l.drop k)[0]? = (l'.drop k)[0]? := by rw [h]
  simpa [List.getElem?_drop] using h1

theorem drop_succ_of_drop_eq {α : Type} (l l' : List α) (k : Nat)
    (h : l.drop k = l'.drop k) : l.drop (k + 1) = l'.drop (k + 1) := by
  have h1 : (l.drop k).drop 1 = (l'.drop k).drop 1 := by rw [h]
  simpa [List.drop_drop, Nat.add_comm] using h1

theorem take_succ_set {α : Type} (l : List α) (n : Nat) (a : α) (h : n < l.length) :
    (l.set n a).take (n + 1) = l.take n ++ [a] := by
  rw [List.set_eq_take_append_cons_drop, if_pos h]
  have hl : (l.take n).length = n := by simp; omega
  rw [List.take_append_eq_append_take, hl]
  simp

theorem enrichTagsStep_inv (tags : StringSlice) (d : String) (k : Nat) (st : ScanState)
    (hk : k < tags.slice.length) (h : ScanInv tags d k st) :
    ∃ st', enrichTagsStep st k = some st' ∧ ScanInv tags d (k + 1) st' := by
  obtain ⟨n_le, n_eq, kept, unread, len_eq, host_eq, entity_eq⟩ := h
  have hread : st.tags.slice[k]? = some tags.slice[k] := by
    rw [getElem?_of_drop_eq _ _ k unread, List.getElem?_eq_getElem hk]
  have htake : tags.slice.take (k + 1) = tags.slice.take k ++ [tags.slice[k]] := by
    rw [List.take_succ, List.getElem?_eq_getElem hk]; rfl
  have hunread := drop_succ_of_drop_eq _ _ k unread
  generalize tags.slice[k] = t at hread htake
  by_cases hh : HasPrefix t hostTagPrefix = true
  · refine ⟨{ st with host := sliceFrom t hostTagPrefix.length }, ?_, ?_⟩
    · simp [enrichTagsStep, StringSlice.Slice, hread, hh]
    · have he := hasPrefix_host_not_entityID t hh
      refine ⟨by simp; omega, ?_, ?_, hunread, len_eq, ?_, ?_⟩
      · simp [htake, retainedTags_append, retainedTags, hh, n_eq]
      · simp [htake, retainedTags_append, retainedTags, hh, kept]
      · simp [htake, lastHostValue_concat, hh]
      · simp [htake, lastEntityIDValue_concat, he, entity_eq]
  · by_cases he : HasPrefix t entityIDTagPrefix = true
    · refine ⟨{ st with entityIDValue := sliceFrom t entityIDTagPrefix.length }, ?_, ?_⟩
      · simp [enrichTagsStep, StringSlice.Slice, hread, hh, he]
      · refine ⟨by simp; omega, ?_, ?_, hunread, len_eq, ?_, ?_⟩
        · simp [htake, retainedTags_append, retainedTags, he, n_eq]
        · simp [htake, retainedTags_append, retainedTags, he, kept]
        · simp [htake, lastHostValue_concat, hh, host_eq]
        · simp [htake, lastEntityIDValue_concat, he]
    · have hn : st.n < st.tags.slice.length := by omega
      refine ⟨{ st with tags := ⟨st.tags.slice.set st.n t⟩, n := st.n + 1 }, ?_, ?_⟩
      · simp [enrichTagsStep, StringSlice.Slice, StringSlice.Set, hread, hh, he, hn]
      · refine ⟨by simp; omega, ?_, ?_, ?_, ?_, ?_, ?_⟩
        · simp [htake, retainedTags_append, retainedTags, hh, he, n_eq]
        · simp only [take_succ_set _ _ _ hn, kept]
          simp [htake, retainedTags_append, retainedTags, hh, he]
        · simp only []
          rw [List.drop_set_of_lt t st.tags.slice (by omega : st.n < k + 1)]
          exact hunread
        · simp [len_eq]
        · simp [htake, lastHostValue_concat, hh, host_eq]
        · simp [htake, lastEntityIDValue_concat, he, entity_eq]

theorem enrichTagsScanUpTo_inv (tags : StringSlice) (d : String) (k : Nat)
    (hk : k ≤ tags.slice.length) :
    ∃ st, enrichTagsScanUpTo tags d k = some st ∧ ScanInv tags d k st := by
  induction k with
  | zero =>
    refine ⟨enrichTagsInit tags d, by simp [enrichTagsScanUpTo], ?_⟩
    refine ⟨?_, ?_, ?_, ?_, ?_, ?_, ?_⟩ <;>
      simp [enrichTagsInit, retainedTags, lastHostValue, lastEntityIDValue]
  | succ k ih =>
    obtain ⟨st, hst, hinv⟩ := ih (by omega)
    obtain ⟨st', hstep, hinv'⟩ := enrichTagsStep_inv tags d k st (by omega) hinv
    refine ⟨st', ?_, hinv'⟩
    unfold enrichTagsScanUpTo at hst ⊢
    rw [List.range_succ, List.foldlM_append, hst]
    simp [hstep]

theorem enrichTagsCompact_eq (tags : StringSlice) (d : String) :
    enrichTagsCompact tags d =
      some { tags := ⟨retainedTags tags.slice⟩
             host := lastHostValue tags.slice d
             entityIDValue := lastEntityIDValue tags.slice
             n := (retainedTags tags.slice).length } := by
  obtain ⟨st, hst, n_le, n_eq, kept, unread, len_eq, host_eq, entity_eq⟩ :=
    enrichTagsScanUpTo_inv tags d tags.slice.length (Nat.le_refl _)
  simp only [List.take_length] at n_eq kept host_eq entity_eq
  obtain ⟨⟨sl⟩, host, ent, n⟩ := st
  simp only at n_eq kept host_eq entity_eq len_eq n_le
  subst host_eq entity_eq n_eq
  simp only [enrichTagsCompact, enrichTagsScan, StringSlice.Slice, hst, StringSlice.Len,
    StringSlice.Resize]
  by_cases hn : (retainedTags tags.slice).length = sl.length
  · have : sl = retainedTags tags.slice := by
      rw [← kept, hn, List.take_length]
    simp [this]
  · simp [hn, kept]

theorem enrichTags_eq (env : Catalog) (tags : StringSlice) (d : String)
    (o : Unit → List String) (p : Bool) :
    enrichTags env tags d o p =
      some { host := lastHostValue tags.slice d
             tags := ⟨retainedTags tags.slice ++ originPart tags.slice o p ++
                      catalogTags env (lastEntityIDValue tags.slice)⟩
             calls := expectedCalls env tags.slice p } := by
  simp only [enrichTags, enrichTagsCompact_eq, enrichTagsEntity, enrichTagsOrigin,
    originPart, catalogTags, expectedCalls, StringSlice.AppendMany]
  generalize lastEntityIDValue tags.slice = v
  by_cases h1 : v = ""
  · subst h1; simp
  · by_cases h2 : v = entityIDIgnoreValue
    · subst h2; cases p <;> simp [h1]
    · rcases hg : env.getTags (env.KubePodTaggerEntityPrefix ++ v) env.DogstatsdCardinality
        with ⟨ts, _ | err⟩ <;> cases p <;> simp [h1, h2, hg]

/-! ## Tag enrichment: the claims -/

/-- C1: the in-place loop of `enrichTags` followed by `Resize(n)` leaves exactly the
input tags that begin with neither `host:` nor `dd.internal.entity_id:`, in their
original order. After any number `k` of iterations the write index `n` is at most the
read index `k`, the first `n` slots hold the retained tags among the first `k` inputs,
and the slots from `k` on (the tags not read yet) are untouched. -/
theorem enrichTags_compaction_is_stable_filter (tags : StringSlice) (d : String) :
    (∀ k ≤ tags.Len, ∃ st, enrichTagsScanUpTo tags d k = some st ∧
        st.n ≤ k ∧
        st.tags.slice.take st.n = retainedTags (tags.slice.take k) ∧
        st.tags.slice.drop k = tags.slice.drop k) ∧
    (∃ st, enrichTagsCompact tags d = some st ∧
        st.tags.slice = retainedTags tags.slice ∧
        st.n = (retainedTags tags.slice).length) := by
  constructor
  · intro k hk
    obtain ⟨st, hst, hinv⟩ := enrichTagsScanUpTo_inv tags d k hk
    exact ⟨st, hst, hinv.n_le, hinv.kept, hinv.unread⟩
  · exact ⟨_, enrichTagsCompact_eq tags d, rfl, rfl⟩

/-- C2: `enrichTags` returns the text following `host:` of the last tag that starts
with `host:`, and the default hostname when no tag starts with `host:`, whatever the
origin-tag supplier, the precedence flag and the catalog resolver are. -/
theorem enrichTags_returns_last_host (env : Catalog) (tags : StringSlice) (d : String)
    (o : Unit → List String) (p : Bool) :
    ∃ r, enrichTags env tags d o p = some r ∧ r.host = lastHostValue tags.slice d :=
  ⟨_, enrichTags_eq env tags d o p, rfl⟩

/-- C3, as stated, fails: the supplier may itself return the `host:` tag (here with
precedence disabled), which then is an element of the final tag list. -/
theorem enrichTags_host_tag_may_reappear :
    enrichTags sampleCatalog ⟨["host:h", "dd.internal.entity_id:none", "env:prod"]⟩ "default"
        (fun _ => ["host:h"]) false
      = some { host := "h", tags := ⟨["env:prod", "host:h"]⟩, calls := [Call.originTagsFunc] } ∧
    "host:h" ∈ ["host:h", "dd.internal.entity_id:none", "env:prod"] ∧
    HasPrefix "host:h" hostTagPrefix = true ∧
    "dd.internal.entity_id:none" ∈ ["host:h", "dd.internal.entity_id:none", "env:prod"] ∧
    HasPrefix "dd.internal.entity_id:none" entityIDTagPrefix = true ∧
    "host:h" ∈ ["env:prod", "host:h"] := by
  refine ⟨by decide, by decide, by decide, by decide, by decide, by decide⟩

/-- C3, amended: when the container contains a `host:` tag `h` and a
`dd.internal.entity_id:` tag `e`, and neither the supplier nor the resolver returns
`h` or `e`, then after `enrichTags` neither is an element of the final tag list, and
the returned hostname is the value of the last `host:` tag. -/
theorem enrichTags_removes_host_and_entity_tags (env : Catalog) (tags : StringSlice)
    (d : String) (o : Unit → List String) (p : Bool) (h e : String)
    (hh : h ∈ tags.slice) (hhp : HasPrefix h hostTagPrefix = true)
    (_he : e ∈ tags.slice) (hep : HasPrefix e entityIDTagPrefix = true)
    (ho : h ∉ o () ∧ e ∉ o ())
    (hc : ∀ entity c, h ∉ (env.getTags entity c).1 ∧ e ∉ (env.getTags entity c).1) :
    ∃ r, enrichTags env tags d o p = some r ∧ h ∉ r.tags.slice ∧ e ∉ r.tags.slice ∧
      r.host = lastHostValue tags.slice d ∧
      ∃ t ∈ tags.slice, HasPrefix t hostTagPrefix = true ∧
        r.host = sliceFrom t hostTagPrefix.length := by
  refine ⟨_, enrichTags_eq env tags d o p, ?_, ?_, rfl, ?_⟩
  · simp only [List.mem_append, not_or]
    refine ⟨⟨?_, ?_⟩, ?_⟩
    · simp [retainedTags, hhp]
    · unfold originPart; split
      · exact ho.1
      · simp
    · unfold catalogTags; split
      · simp
      · have := (hc (env.KubePodTaggerEntityPrefix ++ lastEntityIDValue tags.slice)
          env.DogstatsdCardinality).1
        split
        · next hg => simpa [hg] using this
        · simp
  · simp only [List.mem_append, not_or]
    refine ⟨⟨?_, ?_⟩, ?_⟩
    · simp [retainedTags, hep]
    · unfold originPart; split
      · exact ho.2
      · simp
    · unfold catalogTags; split
      · simp
      · have := (hc (env.KubePodTaggerEntityPrefix ++ lastEntityIDValue tags.slice)
          env.DogstatsdCardinality).2
        split
        · next hg => simpa [hg] using this
        · simp
  · simp only [lastHostValue]
    have hmem : h ∈ tags.slice.filter fun t => HasPrefix t hostTagPrefix := by
      simp [List.mem_filter, hh, hhp]
    cases hl : (tags.slice.filter fun t => HasPrefix t hostTagPrefix).getLast? with
    | none =>
      rw [List.getLast?_eq_none_iff] at hl
      rw [hl] at hmem
      simp at hmem
    | some t =>
      have ht := List.mem_of_getLast?_eq_some hl
      rw [List.mem_filter] at ht
      exact ⟨t, ht.1, ht.2, rfl⟩

/-- Witness for `enrichTags_removes_host_and_entity_tags`: a container with two `host:`
tags and an entity-id tag for a pod the catalog knows, precedence enabled. -/
theorem enrichTags_removes_host_and_entity_tags_witness :
    ∃ r, enrichTags sampleCatalog
          ⟨["host:a", "env:prod", "dd.internal.entity_id:pod-1", "host:b"]⟩ "default"
          sampleOrigin true = some r ∧
      "host:a" ∉ r.tags.slice ∧ "dd.internal.entity_id:pod-1" ∉ r.tags.slice ∧
      r.host = lastHostValue ["host:a", "env:prod", "dd.internal.entity_id:pod-1", "host:b"]
        "default" ∧
      ∃ t ∈ ["host:a", "env:prod", "dd.internal.entity_id:pod-1", "host:b"],
        HasPrefix t hostTagPrefix = true ∧ r.host = sliceFrom t hostTagPrefix.length :=
  enrichTags_removes_host_and_entity_tags sampleCatalog
    ⟨["host:a", "env:prod", "dd.internal.entity_id:pod-1", "host:b"]⟩ "default" sampleOrigin true
    "host:a" "dd.internal.entity_id:pod-1" (by decide) (by decide) (by decide) (by decide)
    (by decide)
    (by
      intro entity c
      simp only [sampleCatalog]
      split <;> decide)

/-- C4: the final tag list is the retained tags, then all origin tags in supplier
order exactly when no entity-id value was captured or precedence is disabled (and the
supplier is called exactly then), then the catalog-resolved tags. With precedence
enabled and a captured entity id that is neither empty nor `none`, no origin tag is
added: the final list is the retained tags followed by the catalog-resolved tags. -/
theorem enrichTags_origin_tags_iff (env : Catalog) (tags : StringSlice) (d : String)
    (o : Unit → List String) (p : Bool) :
    ∃ r, enrichTags env tags d o p = some r ∧
      r.tags.slice = retainedTags tags.slice ++
        (if lastEntityIDValue tags.slice = "" ∨ p = false then o () else []) ++
        catalogTags env (lastEntityIDValue tags.slice) ∧
      (Call.originTagsFunc ∈ r.calls ↔ (lastEntityIDValue tags.slice = "" ∨ p = false)) ∧
      r.calls.count Call.originTagsFunc =
        (if lastEntityIDValue tags.slice = "" ∨ p = false then 1 else 0) ∧
      (p = true ∧ lastEntityIDValue tags.slice ≠ "" ∧
          lastEntityIDValue tags.slice ≠ entityIDIgnoreValue →
        r.tags.slice = retainedTags tags.slice ++
          catalogTags env (lastEntityIDValue tags.slice) ∧
        Call.originTagsFunc ∉ r.calls) := by
  refine ⟨_, enrichTags_eq env tags d o p, rfl, ?_, ?_, ?_⟩
  · simp only [expectedCalls]
    by_cases h1 : lastEntityIDValue tags.slice = "" ∨ p = false
    · simp [h1]
    · simp only [h1, if_false, iff_false, List.nil_append]
      split
      · simp
      · split <;> simp
  · simp only [expectedCalls]
    by_cases h1 : lastEntityIDValue tags.slice = "" ∨ p = false
    · simp only [h1, if_true]
      split
      · simp
      · split <;> simp [List.count_cons]
    · simp only [h1, if_false, List.nil_append]
      split
      · simp
      · split <;> simp [List.count_cons]
  · rintro ⟨hp, h1, h2⟩
    subst hp
    simp only [originPart, expectedCalls, h1, h2, false_or, if_false, List.append_nil,
      List.nil_append, true_and, Bool.true_eq_false, or_self]
    split <;> simp

/-- C5: when the captured entity-id value `v` (the value of the last entity-id tag) is
neither empty nor `none`, the catalog is queried exactly once, for the entity
`kubelet.KubePodTaggerEntityPrefix ++ v` at `tagger.DogstatsdCardinality`, and when
that lookup succeeds its tags are appended, in order, at the end of the container,
after the origin tags when those were appended. -/
theorem enrichTags_catalog_lookup (env : Catalog) (tags : StringSlice) (d : String)
    (o : Unit → List String) (p : Bool)
    (h1 : lastEntityIDValue tags.slice ≠ "")
    (h2 : lastEntityIDValue tags.slice ≠ entityIDIgnoreValue) :
    ∃ r, enrichTags env tags d o p = some r ∧
      r.calls.filter Call.isGetTags =
        [Call.getTags (env.KubePodTaggerEntityPrefix ++ lastEntityIDValue tags.slice)
          env.DogstatsdCardinality] ∧
      ∀ ts, env.getTags (env.KubePodTaggerEntityPrefix ++ lastEntityIDValue tags.slice)
            env.DogstatsdCardinality = (ts, none) →
        r.tags.slice =
          retainedTags tags.slice ++ (if p = false then o () else []) ++ ts := by
  refine ⟨_, enrichTags_eq env tags d o p, ?_, ?_⟩
  · simp only [expectedCalls, h1, h2, false_or, if_false]
    split <;> split <;> simp [Call.isGetTags]
  · intro ts hg
    simp [originPart, catalogTags, h1, h2, hg]

/-- Witness for `enrichTags_catalog_lookup`: the last entity-id tag names `pod-1`. -/
theorem enrichTags_catalog_lookup_witness :
    ∃ r, enrichTags sampleCatalog
          ⟨["dd.internal.entity_id:pod-0", "env:prod", "dd.internal.entity_id:pod-1"]⟩
          "default" sampleOrigin false = some r ∧
      r.calls.filter Call.isGetTags =
        [Call.getTags (sampleCatalog.KubePodTaggerEntityPrefix ++ lastEntityIDValue
          ["dd.internal.entity_id:pod-0", "env:prod", "dd.internal.entity_id:pod-1"])
          sampleCatalog.DogstatsdCardinality] ∧
      ∀ ts, sampleCatalog.getTags (sampleCatalog.KubePodTaggerEntityPrefix ++
            lastEntityIDValue
              ["dd.internal.entity_id:pod-0", "env:prod", "dd.internal.entity_id:pod-1"])
            sampleCatalog.DogstatsdCardinality = (ts, none) →
        r.tags.slice =
          retainedTags ["dd.internal.entity_id:pod-0", "env:prod", "dd.internal.entity_id:pod-1"]
            ++ (if false = false then sampleOrigin () else []) ++ ts :=
  enrichTags_catalog_lookup sampleCatalog
    ⟨["dd.internal.entity_id:pod-0", "env:prod", "dd.internal.entity_id:pod-1"]⟩
    "default" sampleOrigin false (by decide) (by decide)

/-- C6: when the catalog lookup returns an error, `enrichTags` still returns the
resolved hostname, and the final tag list is the retained tags plus the origin tags
when they apply: exactly the list obtained with a resolver whose lookup succeeds with
no tags. -/
theorem enrichTags_lookup_error_not_propagated (env env' : Catalog) (tags : StringSlice)
    (d : String) (o : Unit → List String) (p : Bool) (ts : List String) (err : String)
    (h1 : lastEntityIDValue tags.slice ≠ "")
    (h2 : lastEntityIDValue tags.slice ≠ entityIDIgnoreValue)
    (hg : env.getTags (env.KubePodTaggerEntityPrefix ++ lastEntityIDValue tags.slice)
      env.DogstatsdCardinality = (ts, some err))
    (hg' : env'.getTags (env'.KubePodTaggerEntityPrefix ++ lastEntityIDValue tags.slice)
      env'.DogstatsdCardinality = ([], none)) :
    ∃ r r', enrichTags env tags d o p = some r ∧ enrichTags env' tags d o p = some r' ∧
      r.host = lastHostValue tags.slice d ∧
      r.tags.slice = retainedTags tags.slice ++ (if p = false then o () else []) ∧
      r.tags = r'.tags ∧ r.host = r'.host := by
  refine ⟨_, _, enrichTags_eq env tags d o p, enrichTags_eq env' tags d o p, rfl, ?_, ?_, rfl⟩
  · simp [originPart, catalogTags, h1, h2, hg]
  · simp [catalogTags, h1, h2, hg, hg']

/-- Witness for `enrichTags_lookup_error_not_propagated`: `pod-9` is unknown to the
sample catalog; the second catalog answers every lookup with no tags and no error. -/
theorem enrichTags_lookup_error_not_propagated_witness :
    ∃ r r', enrichTags sampleCatalog ⟨["host:a", "dd.internal.entity_id:pod-9", "env:prod"]⟩
          "default" sampleOrigin false = some r ∧
      enrichTags { sampleCatalog with getTags := fun _ _ => ([], none) }
          ⟨["host:a", "dd.internal.entity_id:pod-9", "env:prod"]⟩
          "default" sampleOrigin false = some r' ∧
      r.host = lastHostValue ["host:a", "dd.internal.entity_id:pod-9", "env:prod"] "default" ∧
      r.tags.slice = retainedTags ["host:a", "dd.internal.entity_id:pod-9", "env:prod"] ++
        (if false = false then sampleOrigin () else []) ∧
      r.tags = r'.tags ∧ r.host = r'.host :=
  enrichTags_lookup_error_not_propagated sampleCatalog
    { sampleCatalog with getTags := fun _ _ => ([], none) }
    ⟨["host:a", "dd.internal.entity_id:pod-9", "env:prod"]⟩ "default" sampleOrigin false
    [] "entity not found" (by decide) (by decide) (by decide) rfl

/-- C7: when the captured entity-id value is `none`, `enrichTags` makes no call to the
catalog resolver, and with entity-id precedence disabled the final tag list is the
retained tags followed by all origin tags. -/
theorem enrichTags_none_entity_id (env : Catalog) (tags : StringSlice) (d : String)
    (o : Unit → List String) (p : Bool)
    (hv : lastEntityIDValue tags.slice = entityIDIgnoreValue) :
    ∃ r, enrichTags env tags d o p = some r ∧
      r.calls.filter Call.isGetTags = [] ∧
      (p = false → r.tags.slice = retainedTags tags.slice ++ o () ∧
        r.calls = [Call.originTagsFunc]) := by
  refine ⟨_, enrichTags_eq env tags d o p, ?_, ?_⟩
  · simp only [expectedCalls, hv, or_true, if_true, List.append_nil]
    split <;> simp [Call.isGetTags]
  · intro hp
    subst hp
    simp [originPart, catalogTags, expectedCalls, hv]

/-- Witness for `enrichTags_none_entity_id`. -/
theorem enrichTags_none_entity_id_witness :
    ∃ r, enrichTags sampleCatalog ⟨["env:prod", "dd.internal.entity_id:none"]⟩ "default"
          sampleOrigin false = some r ∧
      r.calls.filter Call.isGetTags = [] ∧
      (false = false →
        r.tags.slice = retainedTags ["env:prod", "dd.internal.entity_id:none"] ++
          sampleOrigin () ∧
        r.calls = [Call.originTagsFunc]) :=
  enrichTags_none_entity_id sampleCatalog ⟨["env:prod", "dd.internal.entity_id:none"]⟩
    "default" sampleOrigin false (by decide)

/-! ## Metric samples: the claims -/

/-- C8: the final name of `enrichMetricSample` is `namespace ++ name` when the
namespace is non-empty and no blacklist entry is a prefix of the unmodified name, and
the unmodified name otherwise. -/
theorem enrichMetricSample_name (env : Catalog) (m : dogstatsdMetricSample) (ns : String)
    (bl : List String) (d : String) (o : Unit → List String) (p : Bool) :
    ∃ r, enrichMetricSample env m ns bl d o p = some r ∧
      r.1.Name =
        if ns ≠ "" ∧ ∀ pre ∈ bl, HasPrefix m.name pre = false then ns ++ m.name
        else m.name := by
  simp only [enrichMetricSample, enrichTags_eq, isBlacklisted]
  refine ⟨_, rfl, ?_⟩
  by_cases hns : ns = ""
  · subst hns; simp
  · by_cases hb : ∀ pre ∈ bl, HasPrefix m.name pre = false
    · have : (bl.any fun pre => HasPrefix m.name pre) = false := by
        simpa [List.any_eq_false] using hb
      have hr : (if ns ≠ "" ∧ ∀ pre ∈ bl, HasPrefix m.name pre = false then ns ++ m.name
          else m.name) = ns ++ m.name := if_pos ⟨hns, hb⟩
      rw [hr]
      simp [hns, this]
    · have : (bl.any fun pre => HasPrefix m.name pre) = true := by
        simpa [List.any_eq_true] using hb
      have hr : (if ns ≠ "" ∧ ∀ pre ∈ bl, HasPrefix m.name pre = false then ns ++ m.name
          else m.name) = m.name := if_neg (fun h => hb h.2)
      rw [hr]
      simp [hns, this]

/-- C9, as stated, fails: the first conversion removes the `host:` tag from the shared
container, so the second conversion, run on the record as the first one left it,
returns the default hostname. After both conversions the two domain records hold the
same container, but their `Host` differs. -/
theorem enrichMetricSample_twice_differs :
    enrichMetricSample sampleCatalog sampleMetric "" [] "default" sampleOrigin false
      = some ({ Host := "h", Name := "daemon", Tags := ⟨["env:prod", "container_name:app"]⟩,
                Mtype := .HistogramType, Value := ⟨666⟩, SampleRate := ⟨1⟩, RawValue := "" },
              [Call.originTagsFunc]) ∧
    enrichMetricSample sampleCatalog
        (recordAfter sampleMetric
          { Host := "h", Name := "daemon", Tags := ⟨["env:prod", "container_name:app"]⟩,
            Mtype := .HistogramType, Value := ⟨666⟩, SampleRate := ⟨1⟩, RawValue := "" })
        "" [] "default" sampleOrigin false
      = some ({ Host := "default", Name := "daemon",
                Tags := ⟨["env:prod", "container_name:app", "container_name:app"]⟩,
                Mtype := .HistogramType, Value := ⟨666⟩, SampleRate := ⟨1⟩, RawValue := "" },
              [Call.originTagsFunc]) ∧
    enrichMetricSampleTwice sampleCatalog sampleMetric "" [] "default" sampleOrigin false
      = some ({ Host := "h", Name := "daemon",
                Tags := ⟨["env:prod", "container_name:app", "container_name:app"]⟩,
                Mtype := .HistogramType, Value := ⟨666⟩, SampleRate := ⟨1⟩, RawValue := "" },
              { Host := "default", Name := "daemon",
                Tags := ⟨["env:prod", "container_name:app", "container_name:app"]⟩,
                Mtype := .HistogramType, Value := ⟨666⟩, SampleRate := ⟨1⟩, RawValue := "" }) ∧
    ({ Host := "h", Name := "daemon",
       Tags := ⟨["env:prod", "container_name:app", "container_name:app"]⟩,
       Mtype := .HistogramType, Value := ⟨666⟩, SampleRate := ⟨1⟩, RawValue := "" }
        : MetricSample) ≠
      { Host := "default", Name := "daemon",
        Tags := ⟨["env:prod", "container_name:app", "container_name:app"]⟩,
        Mtype := .HistogramType, Value := ⟨666⟩, SampleRate := ⟨1⟩, RawValue := "" } := by
  refine ⟨by decide, by decide, by decide, by decide⟩

theorem retainedTags_idem (l : List String) : retainedTags (retainedTags l) = retainedTags l := by
  simp [retainedTags, List.filter_filter]

theorem lastHostValue_of_no_host (l : List String) (d : String)
    (h : ∀ t ∈ l, HasPrefix t hostTagPrefix = false) : lastHostValue l d = d := by
  have : (l.filter fun t => HasPrefix t hostTagPrefix) = [] := by
    simpa [List.filter_eq_nil_iff] using h
  simp [lastHostValue, this]

theorem lastEntityIDValue_of_no_entity (l : List String)
    (h : ∀ t ∈ l, HasPrefix t entityIDTagPrefix = false) : lastEntityIDValue l = "" := by
  have : (l.filter fun t => HasPrefix t entityIDTagPrefix) = [] := by
    simpa [List.filter_eq_nil_iff] using h
  simp [lastEntityIDValue, this]

theorem retainedTags_no_prefix (l : List String) :
    (∀ t ∈ retainedTags l, HasPrefix t hostTagPrefix = false) ∧
    (∀ t ∈ retainedTags l, HasPrefix t entityIDTagPrefix = false) := by
  constructor <;> intro t ht <;> simp [retainedTags, List.mem_filter] at ht <;> simp [ht]

theorem lastHostValue_retained_append (l x : List String) (d : String) :
    lastHostValue (retainedTags l ++ x) d = lastHostValue x d := by
  have hr := retainedTags_no_prefix l
  have : ((retainedTags l).filter fun t => HasPrefix t hostTagPrefix) = [] := by
    simpa [List.filter_eq_nil_iff] using hr.1
  simp [lastHostValue, List.filter_append, this]

/-- C9, amended: converting the same parsed sample twice, the second time on the
record as the first conversion left it, yields two domain records with the same Name,
Tags (both hold the one shared container), Mtype, Value, SampleRate and RawValue. The
first `Host` is the hostname resolved from the parsed tags, the second one the hostname
resolved from the tags the first conversion appended (origin and catalog tags), and
the two records are identical exactly when these are equal; in particular when
neither the parsed tags nor the supplier's nor the catalog's tags contain a `host:`
tag. -/
theorem enrichMetricSample_twice (env : Catalog) (m : dogstatsdMetricSample) (ns : String)
    (bl : List String) (d : String) (o : Unit → List String) (p : Bool) :
    ∃ r1 r2, enrichMetricSampleTwice env m ns bl d o p = some (r1, r2) ∧
      r2.Name = r1.Name ∧ r2.Tags = r1.Tags ∧ r2.Mtype = r1.Mtype ∧ r2.Value = r1.Value ∧
      r2.SampleRate = r1.SampleRate ∧ r2.RawValue = r1.RawValue ∧
      r1.Host = lastHostValue m.tags.slice d ∧
      r2.Host = lastHostValue (originPart m.tags.slice o p ++
        catalogTags env (lastEntityIDValue m.tags.slice)) d ∧
      (r2 = r1 ↔ r2.Host = r1.Host) ∧
      ((∀ t ∈ m.tags.slice, HasPrefix t hostTagPrefix = false) →
        (∀ t ∈ o (), HasPrefix t hostTagPrefix = false) →
        (∀ t ∈ catalogTags env (lastEntityIDValue m.tags.slice),
          HasPrefix t hostTagPrefix = false) → r2 = r1) := by
  have hhost : lastHostValue (retainedTags m.tags.slice ++ originPart m.tags.slice o p ++
        catalogTags env (lastEntityIDValue m.tags.slice)) d =
      lastHostValue (originPart m.tags.slice o p ++
        catalogTags env (lastEntityIDValue m.tags.slice)) d := by
    rw [List.append_assoc, lastHostValue_retained_append]
  simp only [enrichMetricSampleTwice, enrichMetricSample, enrichTags_eq, recordAfter]
  refine ⟨_, _, rfl, rfl, rfl, rfl, rfl, rfl, rfl, rfl, hhost, ?_, ?_⟩
  · constructor
    · intro h; rw [h]
    · intro h
      simp only at h
      simp only [h]
  · intro hh ho hc
    have h1 : lastHostValue m.tags.slice d = d := lastHostValue_of_no_host _ d hh
    have h2 : lastHostValue (originPart m.tags.slice o p ++
        catalogTags env (lastEntityIDValue m.tags.slice)) d = d := by
      apply lastHostValue_of_no_host
      intro t ht
      rw [List.mem_append] at ht
      rcases ht with ht | ht
      · unfold originPart at ht
        split at ht
        · exact ho t ht
        · simp at ht
      · exact hc t ht
    simp only [hhost, h1, h2]

/-- Evaluation of `enrichMetricSample_twice` at a sample with an entity-id tag the
catalog resolves, with precedence enabled: the parsed tags, the supplier's tag and the
catalog's tags contain no `host:` tag, and the two conversions leave two identical
records. -/
theorem enrichMetricSample_twice_witness :
    enrichMetricSampleTwice sampleCatalog podMetric "" [] "default" sampleOrigin true
      = some ({ Host := "default", Name := "daemon",
                Tags := ⟨["env:prod", "pod_name:web", "kube_namespace:default",
                          "container_name:app"]⟩,
                Mtype := .GaugeType, Value := ⟨666⟩, SampleRate := ⟨1⟩, RawValue := "" },
              { Host := "default", Name := "daemon",
                Tags := ⟨["env:prod", "pod_name:web", "kube_namespace:default",
                          "container_name:app"]⟩,
                Mtype := .GaugeType, Value := ⟨666⟩, SampleRate := ⟨1⟩, RawValue := "" }) ∧
    ∃ r1 r2, enrichMetricSampleTwice sampleCatalog podMetric "" [] "default" sampleOrigin true
        = some (r1, r2) ∧ r2 = r1 := by
  refine ⟨by decide, ?_⟩
  obtain ⟨r1, r2, h, -, -, -, -, -, -, -, -, -, hsame⟩ :=
    enrichMetricSample_twice sampleCatalog podMetric "" [] "default" sampleOrigin true
  exact ⟨r1, r2, h, hsame (by decide) (by decide) (by decide)⟩

/-! ## Lemmas on the batcher -/

theorem newBatcher_inv (pool : MetricSamplePool) (N : Nat)
    (hpool : ∀ k, (pool.batches k).length = N) : BatcherInv N (newBatcher pool) :=
  ⟨hpool _, Nat.zero_le _, hpool⟩

theorem flushSamples_spec (N : Nat) (b : batcher) (hb : BatcherInv N b) :
    ∃ b', b.flushSamples = some b' ∧ BatcherInv N b' ∧ b'.samplesCount = 0 ∧
      b'.shardedAgg.flatten = b.taken ∧
      b'.events = b.events ∧ b'.serviceChecks = b.serviceChecks ∧
      b'.choutEvents = b.choutEvents ∧ b'.choutServiceChecks = b.choutServiceChecks := by
  obtain ⟨len_eq, count_le, pool_len⟩ := hb
  by_cases hc : b.samplesCount > 0
  · refine ⟨{ b with
        shardedAgg := b.shardedAgg ++ [b.samples.take b.samplesCount]
        samplesCount := 0
        samples := b.GlobalMetricSamplePool.GetBatch.1
        GlobalMetricSamplePool := b.GlobalMetricSamplePool.GetBatch.2 }, ?_, ?_, rfl, ?_,
      rfl, rfl, rfl, rfl⟩
    · simp [batcher.flushSamples, hc, len_eq, count_le]
    · exact ⟨pool_len _, Nat.zero_le _, pool_len⟩
    · simp [batcher.taken]
  · have h0 : b.samplesCount = 0 := by omega
    refine ⟨b, by simp [batcher.flushSamples, h0], ⟨len_eq, count_le, pool_len⟩, h0, ?_,
      rfl, rfl, rfl, rfl⟩
    simp [batcher.taken, h0]

theorem appendSample_spec (N : Nat) (hN : 1 ≤ N) (b : batcher) (hb : BatcherInv N b)
    (x : MetricSample) :
    ∃ b', b.appendSample x = some b' ∧ BatcherInv N b' ∧ b'.taken = b.taken ++ [x] ∧
      b'.events = b.events ∧ b'.serviceChecks = b.serviceChecks ∧
      b'.choutEvents = b.choutEvents ∧ b'.choutServiceChecks = b.choutServiceChecks := by
  by_cases hfull : b.samplesCount = b.samples.length
  · obtain ⟨b1, hf, hinv1, hc1, hagg1, he, hs, hce, hcs⟩ := flushSamples_spec N b hb
    obtain ⟨len1, -, pool1⟩ := hinv1
    have hlt : b1.samplesCount < b1.samples.length := by omega
    refine ⟨{ b1 with
        samples := b1.samples.set b1.samplesCount x
        samplesCount := b1.samplesCount + 1 }, ?_, ?_, ?_, he, hs, hce, hcs⟩
    · simp [batcher.appendSample, hfull, hf, hlt]
    · exact ⟨by simp [len1], by simp [hc1]; omega, pool1⟩
    · simp only [batcher.taken, hagg1]
      rw [take_succ_set _ _ _ hlt]
      simp [batcher.taken, hc1]
  · obtain ⟨len_eq, count_le, pool_len⟩ := hb
    have hlt : b.samplesCount < b.samples.length := by omega
    refine ⟨{ b with
        samples := b.samples.set b.samplesCount x
        samplesCount := b.samplesCount + 1 }, ?_, ?_, ?_, rfl, rfl, rfl, rfl⟩
    · simp [batcher.appendSample, hfull, hlt]
    · exact ⟨by simp [len_eq], by simp; omega, pool_len⟩
    · simp only [batcher.taken]
      rw [take_succ_set _ _ _ hlt]
      simp

theorem appendSamples_spec (N : Nat) (hN : 1 ≤ N) (xs : List MetricSample) :
    ∀ b : batcher, BatcherInv N b →
      ∃ b', b.appendSamples xs = some b' ∧ BatcherInv N b' ∧ b'.taken = b.taken ++ xs ∧
        b'.events = b.events ∧ b'.serviceChecks = b.serviceChecks ∧
        b'.choutEvents = b.choutEvents ∧ b'.choutServiceChecks = b.choutServiceChecks := by
  induction xs with
  | nil =>
    intro b hb
    exact ⟨b, by simp [batcher.appendSamples], hb, by simp, rfl, rfl, rfl, rfl⟩
  | cons x xs ih =>
    intro b hb
    obtain ⟨b1, h1, hinv1, ht1, he1, hs1, hce1, hcs1⟩ := appendSample_spec N hN b hb x
    obtain ⟨b2, h2, hinv2, ht2, he2, hs2, hce2, hcs2⟩ := ih b1 hinv1
    refine ⟨b2, ?_, hinv2, by simp [ht2, ht1], he2.trans he1, hs2.trans hs1,
      hce2.trans hce1, hcs2.trans hcs1⟩
    simp only [batcher.appendSamples] at h2 ⊢
    simp [List.foldlM_cons, h1, h2]

theorem flush_spec (N : Nat) (b : batcher) (hb : BatcherInv N b) :
    ∃ b', b.flush = some b' ∧ BatcherInv N b' ∧ b'.samplesCount = 0 ∧
      b'.shardedAgg.flatten = b.taken := by
  obtain ⟨b1, hf, hinv1, hc1, hagg1, -⟩ := flushSamples_spec N b hb
  obtain ⟨len1, cnt1, pool1⟩ := hinv1
  simp only [batcher.flush, hf]
  refine ⟨_, rfl, ?_, ?_, ?_⟩
  · constructor
    · split <;> split <;> simpa using len1
    · split <;> split <;> simpa using cnt1
    · split <;> split <;> simpa using pool1
  · split <;> split <;> simpa using hc1
  · split <;> split <;> simpa using hagg1

/-! ## The batcher: the claims -/

/-- C10: on a batcher whose pooled buffers all have capacity `N ≥ 1`, any sequence of
`appendSample` calls followed by one `flush` runs without panic, and the concatenation
of the batches pushed to the sink, in push order, is the sequence of appended samples in
append order. -/
theorem batcher_fifo (pool : MetricSamplePool) (N : Nat) (hN : 1 ≤ N)
    (hpool : ∀ k, (pool.batches k).length = N) (xs : List MetricSample) :
    ∃ b b', (newBatcher pool).appendSamples xs = some b ∧ b.flush = some b' ∧
      b'.shardedAgg.flatten = xs := by
  obtain ⟨b, h1, hinv, ht, -⟩ :=
    appendSamples_spec N hN xs (newBatcher pool) (newBatcher_inv pool N hpool)
  obtain ⟨b', h2, -, -, hagg⟩ := flush_spec N b hinv
  refine ⟨b, b', h1, h2, ?_⟩
  rw [hagg, ht]
  simp [batcher.taken, newBatcher]

/-- Witness for `batcher_fifo`: five samples through buffers of capacity two. -/
theorem batcher_fifo_witness :
    (∀ k, (samplePool.batches k).length = 2) ∧
    ∃ b b', (newBatcher samplePool).appendSamples
          [sampleNamed "a", sampleNamed "b", sampleNamed "c", sampleNamed "d", sampleNamed "e"]
          = some b ∧
      b.flush = some b' ∧
      b'.shardedAgg.flatten =
        [sampleNamed "a", sampleNamed "b", sampleNamed "c", sampleNamed "d", sampleNamed "e"] :=
  ⟨fun _ => rfl, batcher_fifo samplePool 2 (by decide) (fun _ => rfl) _⟩

/-! ## One call of `appendSample` and of `flushSamples` -/

theorem flushSamples_pos (b : batcher) (hc : 0 < b.samplesCount)
    (hle : b.samplesCount ≤ b.samples.length) :
    b.flushSamples = some { b with
      shardedAgg := b.shardedAgg ++ [b.samples.take b.samplesCount]
      samplesCount := 0
      samples := b.GlobalMetricSamplePool.GetBatch.1
      GlobalMetricSamplePool := b.GlobalMetricSamplePool.GetBatch.2 } := by
  simp [batcher.flushSamples, hc, hle]

theorem flushSamples_zero (b : batcher) (h0 : b.samplesCount = 0) :
    b.flushSamples = some b := by
  simp [batcher.flushSamples, h0]

theorem appendSample_notFull (b : batcher) (x : MetricSample)
    (hlt : b.samplesCount < b.samples.length) :
    b.appendSample x = some { b with
      samples := b.samples.set b.samplesCount x
      samplesCount := b.samplesCount + 1 } := by
  have hne : b.samplesCount ≠ b.samples.length := by omega
  simp [batcher.appendSample, hne, hlt]

theorem appendSample_full (b : batcher) (x : MetricSample)
    (hfull : b.samplesCount = b.samples.length) (hpos : 0 < b.samples.length)
    (hfresh : 0 < b.GlobalMetricSamplePool.GetBatch.1.length) :
    b.appendSample x = some { b with
      shardedAgg := b.shardedAgg ++ [b.samples]
      samples := b.GlobalMetricSamplePool.GetBatch.1.set 0 x
      samplesCount := 1
      GlobalMetricSamplePool := b.GlobalMetricSamplePool.GetBatch.2 } := by
  have hc : 0 < b.samplesCount := by omega
  have hf := flushSamples_pos b hc (by omega)
  have ht : b.samples.take b.samplesCount = b.samples := by
    rw [hfull, List.take_length]
  simp [batcher.appendSample, hfull, hf, hfresh, ht]

/-- Appending samples that all fit in the current buffer pushes nothing. -/
theorem appendSamples_pending (xs : List MetricSample) :
    ∀ b : batcher, b.samplesCount + xs.length ≤ b.samples.length →
      ∃ b', b.appendSamples xs = some b' ∧
        b'.samplesCount = b.samplesCount + xs.length ∧
        b'.samples.length = b.samples.length ∧
        b'.samples.take b'.samplesCount = b.samples.take b.samplesCount ++ xs ∧
        b'.shardedAgg = b.shardedAgg ∧
        b'.GlobalMetricSamplePool = b.GlobalMetricSamplePool ∧
        b'.events = b.events ∧ b'.serviceChecks = b.serviceChecks ∧
        b'.choutEvents = b.choutEvents ∧ b'.choutServiceChecks = b.choutServiceChecks := by
  induction xs with
  | nil =>
    intro b _
    exact ⟨b, by simp [batcher.appendSamples], by simp, rfl, by simp, rfl, rfl, rfl, rfl,
      rfl, rfl⟩
  | cons x xs ih =>
    intro b hb
    simp only [List.length_cons] at hb
    have hlt : b.samplesCount < b.samples.length := by omega
    have h1 := appendSample_notFull b x hlt
    obtain ⟨b', h2, hc, hl, ht, ha, hp, he, hs, hce, hcs⟩ := ih
      { b with samples := b.samples.set b.samplesCount x, samplesCount := b.samplesCount + 1 }
      (by simp; omega)
    refine ⟨b', ?_, ?_, ?_, ?_, ha, hp, he, hs, hce, hcs⟩
    · simp only [batcher.appendSamples] at h2 ⊢
      simp [List.foldlM_cons, h1, h2]
    · simp only [hc, List.length_cons]; omega
    · simpa using hl
    · rw [ht]
      simp only []
      rw [take_succ_set _ _ _ hlt]
      simp

/-! ## The batcher: one call at a time -/

/-- C11: on buffers of capacity `N ≥ 1`, `appendSample` called with `samplesCount = N`
pushes the `N` buffered samples to the sink as one batch, takes a fresh buffer from the
pool, stores the new sample at index 0 and leaves `samplesCount = 1`; called with
`samplesCount < N` it pushes nothing, stores the sample at index `samplesCount` and
increments `samplesCount` by one. -/
theorem appendSample_full_or_not (N : Nat) (hN : 1 ≤ N) (b : batcher) (x : MetricSample)
    (hlen : b.samples.length = N)
    (hpool : ∀ k, (b.GlobalMetricSamplePool.batches k).length = N) :
    (b.samplesCount = N →
      ∃ b', b.appendSample x = some b' ∧
        b'.shardedAgg = b.shardedAgg ++ [b.samples] ∧
        b'.samples = b.GlobalMetricSamplePool.GetBatch.1.set 0 x ∧
        b'.samples[0]? = some x ∧ b'.samplesCount = 1 ∧
        b'.GlobalMetricSamplePool = b.GlobalMetricSamplePool.GetBatch.2) ∧
    (b.samplesCount < N →
      ∃ b', b.appendSample x = some b' ∧
        b'.shardedAgg = b.shardedAgg ∧
        b'.samples = b.samples.set b.samplesCount x ∧
        b'.samples[b.samplesCount]? = some x ∧
        b'.samplesCount = b.samplesCount + 1 ∧
        b'.GlobalMetricSamplePool = b.GlobalMetricSamplePool) := by
  constructor
  · intro hfull
    have hfresh : 0 < b.GlobalMetricSamplePool.GetBatch.1.length := by
      simp only [MetricSamplePool.GetBatch, hpool]; omega
    refine ⟨_, appendSample_full b x (by omega) (by omega) hfresh, rfl, rfl, ?_, rfl, rfl⟩
    simp [List.getElem?_set, hfresh]
  · intro hlt
    refine ⟨_, appendSample_notFull b x (by omega), rfl, rfl, ?_, rfl, rfl⟩
    simp only [List.getElem?_set, if_true]
    simp [hlen, hlt]

/-- Witness for `appendSample_full_or_not`: a full and a half-full buffer of capacity
two. -/
theorem appendSample_full_or_not_witness :
    (∃ b', fullBatcher.appendSample (sampleNamed "c") = some b' ∧
      b'.shardedAgg = fullBatcher.shardedAgg ++ [fullBatcher.samples] ∧
      b'.samples = fullBatcher.GlobalMetricSamplePool.GetBatch.1.set 0 (sampleNamed "c") ∧
      b'.samples[0]? = some (sampleNamed "c") ∧ b'.samplesCount = 1 ∧
      b'.GlobalMetricSamplePool = fullBatcher.GlobalMetricSamplePool.GetBatch.2) ∧
    (∃ b', halfBatcher.appendSample (sampleNamed "c") = some b' ∧
      b'.shardedAgg = halfBatcher.shardedAgg ∧
      b'.samples = halfBatcher.samples.set halfBatcher.samplesCount (sampleNamed "c") ∧
      b'.samples[halfBatcher.samplesCount]? = some (sampleNamed "c") ∧
      b'.samplesCount = halfBatcher.samplesCount + 1 ∧
      b'.GlobalMetricSamplePool = halfBatcher.GlobalMetricSamplePool) :=
  ⟨(appendSample_full_or_not 2 (by decide) fullBatcher (sampleNamed "c") rfl
      (fun _ => rfl)).1 rfl,
   (appendSample_full_or_not 2 (by decide) halfBatcher (sampleNamed "c") rfl
      (fun _ => rfl)).2 (by decide)⟩

/-- C12, as stated, fails: after exactly two appends on buffers of capacity two, no
batch has been pushed to the sink; the two samples are pending and `samplesCount = 2`. -/
theorem appendSamples_exactly_N_pushes_nothing :
    ((newBatcher samplePool).appendSamples [sampleNamed "a", sampleNamed "b"]).map
        (fun b => (b.shardedAgg, b.samplesCount, b.samples))
      = some ([], 2, [sampleNamed "a", sampleNamed "b"]) := by
  decide

/-- C12, amended: starting from a freshly constructed batcher with batch size `N ≥ 1`,
appending exactly `N` samples pushes no batch: the `N` samples are pending in the full
buffer, with `samplesCount = N`. The next flush then pushes exactly one batch, which
holds the `N` samples. -/
theorem appendSamples_exactly_N (pool : MetricSamplePool) (N : Nat) (hN : 1 ≤ N)
    (hpool : ∀ k, (pool.batches k).length = N) (xs : List MetricSample)
    (hxs : xs.length = N) :
    ∃ b b', (newBatcher pool).appendSamples xs = some b ∧
      b.shardedAgg = [] ∧ b.samplesCount = N ∧ b.samples = xs ∧
      b.flush = some b' ∧ b'.shardedAgg = [xs] ∧ b'.samplesCount = 0 := by
  obtain ⟨b, h1, hc, hl, ht, ha, hp, -⟩ := appendSamples_pending xs (newBatcher pool)
    (by simp [newBatcher, MetricSamplePool.GetBatch, hpool, hxs])
  have hl' : b.samples.length = N := by
    simpa [newBatcher, MetricSamplePool.GetBatch, hpool] using hl
  have hc' : b.samplesCount = N := by simpa [newBatcher, hxs] using hc
  have hs : b.samples = xs := by
    have := ht
    rw [hc', ← hl', List.take_length] at this
    simpa [newBatcher] using this
  have ha' : b.shardedAgg = [] := by simpa [newBatcher] using ha
  have hf := flushSamples_pos b (by omega) (by omega)
  refine ⟨b, _, h1, ha', hc', hs, by simp only [batcher.flush, hf]; rfl, ?_, ?_⟩
  · split <;> split <;> simp [ha', hc', ← hl', hs]
  · split <;> split <;> simp

/-- Witness for `appendSamples_exactly_N`: two samples on buffers of capacity two. -/
theorem appendSamples_exactly_N_witness :
    ∃ b b', (newBatcher samplePool).appendSamples [sampleNamed "a", sampleNamed "b"] = some b ∧
      b.shardedAgg = [] ∧ b.samplesCount = 2 ∧ b.samples = [sampleNamed "a", sampleNamed "b"] ∧
      b.flush = some b' ∧ b'.shardedAgg = [[sampleNamed "a", sampleNamed "b"]] ∧
      b'.samplesCount = 0 :=
  appendSamples_exactly_N samplePool 2 (by decide) (fun _ => rfl)
    [sampleNamed "a", sampleNamed "b"] rfl

/-- C13: starting from a freshly constructed batcher with batch size `N ≥ 1`, appending
`N + 1` samples pushes exactly one batch to the sink, holding the first `N` samples in
order, and leaves `samplesCount = 1` with the last sample pending at index 0; the next
flush pushes that sample as a second batch. -/
theorem appendSamples_N_plus_one (pool : MetricSamplePool) (N : Nat) (hN : 1 ≤ N)
    (hpool : ∀ k, (pool.batches k).length = N) (xs : List MetricSample) (x : MetricSample)
    (hxs : xs.length = N) :
    ∃ b b', (newBatcher pool).appendSamples (xs ++ [x]) = some b ∧
      b.shardedAgg = [xs] ∧ b.samplesCount = 1 ∧ b.samples[0]? = some x ∧
      b.flush = some b' ∧ b'.shardedAgg = [xs, [x]] ∧ b'.samplesCount = 0 := by
  obtain ⟨b0, h1, hc, hl, ht, ha, hp, -⟩ := appendSamples_pending xs (newBatcher pool)
    (by simp [newBatcher, MetricSamplePool.GetBatch, hpool, hxs])
  have hl' : b0.samples.length = N := by
    simpa [newBatcher, MetricSamplePool.GetBatch, hpool] using hl
  have hc' : b0.samplesCount = N := by simpa [newBatcher, hxs] using hc
  have hs : b0.samples = xs := by
    have := ht
    rw [hc', ← hl', List.take_length] at this
    simpa [newBatcher] using this
  have ha' : b0.shardedAgg = [] := by simpa [newBatcher] using ha
  have hfresh : 0 < b0.GlobalMetricSamplePool.GetBatch.1.length := by
    simp only [MetricSamplePool.GetBatch, hp, newBatcher, hpool]; omega
  have h2 := appendSample_full b0 x (by omega) (by omega) hfresh
  have happ : (newBatcher pool).appendSamples (xs ++ [x]) = b0.appendSample x := by
    simp only [batcher.appendSamples] at h1 ⊢
    rw [List.foldlM_append, h1]
    simp
  have hx0 : (b0.GlobalMetricSamplePool.GetBatch.1.set 0 x)[0]? = some x := by
    simp [List.getElem?_set, hfresh]
  have hx1 : (b0.GlobalMetricSamplePool.GetBatch.1.set 0 x).take 1 = [x] := by
    have := take_succ_set b0.GlobalMetricSamplePool.GetBatch.1 0 x hfresh
    simpa using this
  have hf := flushSamples_pos
    { b0 with
      shardedAgg := b0.shardedAgg ++ [b0.samples]
      samples := b0.GlobalMetricSamplePool.GetBatch.1.set 0 x
      samplesCount := 1
      GlobalMetricSamplePool := b0.GlobalMetricSamplePool.GetBatch.2 }
    (by simp) (by simp; omega)
  refine ⟨_, _, happ.trans h2, by simp [ha', hs], rfl, hx0,
    by simp only [batcher.flush, hf]; rfl, ?_, ?_⟩
  · split <;> split <;> simp [ha', hs, hx1]
  · split <;> split <;> simp

/-- Witness for `appendSamples_N_plus_one`: three samples on buffers of capacity two. -/
theorem appendSamples_N_plus_one_witness :
    ∃ b b', (newBatcher samplePool).appendSamples
          ([sampleNamed "a", sampleNamed "b"] ++ [sampleNamed "c"]) = some b ∧
      b.shardedAgg = [[sampleNamed "a", sampleNamed "b"]] ∧ b.samplesCount = 1 ∧
      b.samples[0]? = some (sampleNamed "c") ∧
      b.flush = some b' ∧
      b'.shardedAgg = [[sampleNamed "a", sampleNamed "b"], [sampleNamed "c"]] ∧
      b'.samplesCount = 0 :=
  appendSamples_N_plus_one samplePool 2 (by decide) (fun _ => rfl)
    [sampleNamed "a", sampleNamed "b"] (sampleNamed "c") rfl

/-- C14: `flushSamples` with `samplesCount = k > 0` pushes the first `k` buffered
samples to the sink as one batch of length `k`, sets `samplesCount` to 0 and replaces
the buffer with a fresh one from the pool, leaving the events, the service checks and
the channels alone; with `samplesCount = 0` it leaves the batcher unchanged. -/
theorem flushSamples_cases (b : batcher) (hle : b.samplesCount ≤ b.samples.length) :
    ∃ b', b.flushSamples = some b' ∧
      (0 < b.samplesCount →
        b'.shardedAgg = b.shardedAgg ++ [b.samples.take b.samplesCount] ∧
        (b.samples.take b.samplesCount).length = b.samplesCount ∧
        b'.samplesCount = 0 ∧
        b'.samples = b.GlobalMetricSamplePool.GetBatch.1 ∧
        b'.GlobalMetricSamplePool = b.GlobalMetricSamplePool.GetBatch.2 ∧
        b'.events = b.events ∧ b'.serviceChecks = b.serviceChecks ∧
        b'.choutEvents = b.choutEvents ∧ b'.choutServiceChecks = b.choutServiceChecks) ∧
      (b.samplesCount = 0 → b' = b) ∧
      b'.shardedAgg.length = b.shardedAgg.length + (if b.samplesCount = 0 then 0 else 1) := by
  by_cases hc : 0 < b.samplesCount
  · refine ⟨_, flushSamples_pos b hc hle, fun _ => ⟨rfl, ?_, rfl, rfl, rfl, rfl, rfl, rfl, rfl⟩,
      fun h0 => by omega, ?_⟩
    · simp [hle]
    · have : b.samplesCount ≠ 0 := by omega
      simp [this]
  · have h0 : b.samplesCount = 0 := by omega
    exact ⟨b, flushSamples_zero b h0, fun h => absurd h hc, fun _ => rfl, by simp [h0]⟩

/-- Witness for `flushSamples_cases`: one pending sample in a buffer of capacity two. -/
theorem flushSamples_cases_witness :
    ∃ b', halfBatcher.flushSamples = some b' ∧
      (0 < halfBatcher.samplesCount →
        b'.shardedAgg = halfBatcher.shardedAgg ++
          [halfBatcher.samples.take halfBatcher.samplesCount] ∧
        (halfBatcher.samples.take halfBatcher.samplesCount).length = halfBatcher.samplesCount ∧
        b'.samplesCount = 0 ∧
        b'.samples = halfBatcher.GlobalMetricSamplePool.GetBatch.1 ∧
        b'.GlobalMetricSamplePool = halfBatcher.GlobalMetricSamplePool.GetBatch.2 ∧
        b'.events = halfBatcher.events ∧ b'.serviceChecks = halfBatcher.serviceChecks ∧
        b'.choutEvents = halfBatcher.choutEvents ∧
        b'.choutServiceChecks = halfBatcher.choutServiceChecks) ∧
      (halfBatcher.samplesCount = 0 → b' = halfBatcher) ∧
      b'.shardedAgg.length =
        halfBatcher.shardedAgg.length + (if halfBatcher.samplesCount = 0 then 0 else 1) :=
  flushSamples_cases halfBatcher (by decide)

/-- C15: `flush` flushes the samples, then sends the buffered events as a single group,
in append order, on the event channel exactly when at least one event is buffered, and
likewise for the service checks; afterwards `samplesCount = 0` and both sequences are
empty. No empty group is sent: with nothing buffered the channel receives nothing. -/
theorem flush_sends_nonempty_groups (b : batcher) (hle : b.samplesCount ≤ b.samples.length) :
    ∃ b1 b', b.flushSamples = some b1 ∧ b.flush = some b' ∧
      b'.samples = b1.samples ∧ b'.shardedAgg = b1.shardedAgg ∧
      b'.GlobalMetricSamplePool = b1.GlobalMetricSamplePool ∧
      b'.samplesCount = 0 ∧ b'.events = [] ∧ b'.serviceChecks = [] ∧
      b'.choutEvents =
        (if b.events = [] then b.choutEvents else b.choutEvents ++ [b.events]) ∧
      b'.choutServiceChecks =
        (if b.serviceChecks = [] then b.choutServiceChecks
         else b.choutServiceChecks ++ [b.serviceChecks]) := by
  by_cases hc : 0 < b.samplesCount
  · have hf := flushSamples_pos b hc hle
    refine ⟨_, _, hf, by simp only [batcher.flush, hf]; rfl, ?_, ?_, ?_, ?_, ?_, ?_, ?_, ?_⟩ <;>
      cases he : b.events <;> cases hs : b.serviceChecks <;> simp [he, hs]
  · have h0 : b.samplesCount = 0 := by omega
    have hf := flushSamples_zero b h0
    refine ⟨_, _, hf, by simp only [batcher.flush, hf]; rfl, ?_, ?_, ?_, ?_, ?_, ?_, ?_, ?_⟩ <;>
      cases he : b.events <;> cases hs : b.serviceChecks <;> simp [he, hs, h0]

/-- Witness for `flush_sends_nonempty_groups`: two buffered events, no service check. -/
theorem flush_sends_nonempty_groups_witness :
    ∃ b1 b', eventfulBatcher.flushSamples = some b1 ∧ eventfulBatcher.flush = some b' ∧
      b'.samples = b1.samples ∧ b'.shardedAgg = b1.shardedAgg ∧
      b'.GlobalMetricSamplePool = b1.GlobalMetricSamplePool ∧
      b'.samplesCount = 0 ∧ b'.events = [] ∧ b'.serviceChecks = [] ∧
      b'.choutEvents =
        (if eventfulBatcher.events = [] then eventfulBatcher.choutEvents
         else eventfulBatcher.choutEvents ++ [eventfulBatcher.events]) ∧
      b'.choutServiceChecks =
        (if eventfulBatcher.serviceChecks = [] then eventfulBatcher.choutServiceChecks
         else eventfulBatcher.choutServiceChecks ++ [eventfulBatcher.serviceChecks]) :=
  flush_sends_nonempty_groups eventfulBatcher (by decide)

/-- C16: `appendEvent` and `appendServiceCheck` only append the given record at the end
of their own sequence: the sink, both channels, the pool, `samples`, `samplesCount` and
the other sequence are unchanged. -/
theorem appendEvent_appendServiceCheck_frame (b : batcher) (e : Event) (c : ServiceCheck) :
    ((b.appendEvent e).events = b.events ++ [e] ∧
      (b.appendEvent e).serviceChecks = b.serviceChecks ∧
      (b.appendEvent e).samples = b.samples ∧
      (b.appendEvent e).samplesCount = b.samplesCount ∧
      (b.appendEvent e).shardedAgg = b.shardedAgg ∧
      (b.appendEvent e).choutEvents = b.choutEvents ∧
      (b.appendEvent e).choutServiceChecks = b.choutServiceChecks ∧
      (b.appendEvent e).GlobalMetricSamplePool = b.GlobalMetricSamplePool) ∧
    ((b.appendServiceCheck c).serviceChecks = b.serviceChecks ++ [c] ∧
      (b.appendServiceCheck c).events = b.events ∧
      (b.appendServiceCheck c).samples = b.samples ∧
      (b.appendServiceCheck c).samplesCount = b.samplesCount ∧
      (b.appendServiceCheck c).shardedAgg = b.shardedAgg ∧
      (b.appendServiceCheck c).choutEvents = b.choutEvents ∧
      (b.appendServiceCheck c).choutServiceChecks = b.choutServiceChecks ∧
      (b.appendServiceCheck c).GlobalMetricSamplePool = b.GlobalMetricSamplePool) :=
  ⟨⟨rfl, rfl, rfl, rfl, rfl, rfl, rfl, rfl⟩, ⟨rfl, rfl, rfl, rfl, rfl, rfl, rfl, rfl⟩⟩

/-! ## Conversion of records: the claims -/

theorem retainedTags_of_no_prefix (l : List String)
    (hh : ∀ t ∈ l, HasPrefix t hostTagPrefix = false)
    (he : ∀ t ∈ l, HasPrefix t entityIDTagPrefix = false) : retainedTags l = l := by
  unfold retainedTags
  rw [List.filter_eq_self]
  intro t ht
  simp [hh t ht, he t ht]

theorem length_ne_zero_of_ne_empty (s : String) (h : s ≠ "") : s.length ≠ 0 := by
  obtain ⟨cs⟩ := s
  cases cs with
  | nil => exact absurd rfl h
  | cons c cs => simp [String.length]

/-- C17: `enrichMetricType` maps gauge to Gauge, count to Counter, distribution to
Distribution, histogram to Histogram, set to Set and timing to Histogram; two distinct
wire kinds have the same image only when they are histogram and timing. -/
theorem enrichMetricType_mapping :
    enrichMetricType .gaugeType = .GaugeType ∧
    enrichMetricType .countType = .CounterType ∧
    enrichMetricType .distributionType = .DistributionType ∧
    enrichMetricType .histogramType = .HistogramType ∧
    enrichMetricType .setType = .SetType ∧
    enrichMetricType .timingType = .HistogramType ∧
    ∀ a b : metricType, a ≠ b → enrichMetricType a = enrichMetricType b →
      (a = .histogramType ∧ b = .timingType) ∨ (a = .timingType ∧ b = .histogramType) := by
  refine ⟨rfl, rfl, rfl, rfl, rfl, rfl, ?_⟩
  intro a b hab h
  cases a <;> cases b <;> simp_all [enrichMetricType]

/-- C18: for a parsed sample whose tags contain no `host:` and no
`dd.internal.entity_id:` tag, with an empty namespace and a supplier returning no tags,
`enrichMetricSample` returns the default hostname, the parsed name, the parsed tags in
the same order, and the parsed value, sample rate and set value. In particular the
parsed form of `daemon:666|h|@0.5|#sometag1:somevalue1,sometag2:somevalue2` yields name
`daemon`, kind Histogram, value 666, sample rate 0.5 and its two tags. -/
theorem enrichMetricSample_plain (env : Catalog) (m : dogstatsdMetricSample)
    (bl : List String) (d : String) (o : Unit → List String) (p : Bool)
    (hh : ∀ t ∈ m.tags.slice, HasPrefix t hostTagPrefix = false)
    (he : ∀ t ∈ m.tags.slice, HasPrefix t entityIDTagPrefix = false)
    (ho : o () = []) :
    (∃ r, enrichMetricSample env m "" bl d o p = some r ∧
      r.1.Host = d ∧ r.1.Name = m.name ∧ r.1.Tags = m.tags ∧
      r.1.Mtype = enrichMetricType m.metricType ∧ r.1.Value = m.value ∧
      r.1.SampleRate = m.sampleRate ∧ r.1.RawValue = m.setValue) ∧
    enrichMetricSample env daemonSample "" bl d (fun _ => []) p =
      some ({ Host := d, Name := "daemon",
              Tags := ⟨["sometag1:somevalue1", "sometag2:somevalue2"]⟩,
              Mtype := .HistogramType, Value := ⟨0x4084D00000000000⟩,
              SampleRate := ⟨0x3FE0000000000000⟩, RawValue := "" },
            [Call.originTagsFunc]) := by
  have key : ∀ (m : dogstatsdMetricSample) (o : Unit → List String),
      (∀ t ∈ m.tags.slice, HasPrefix t hostTagPrefix = false) →
      (∀ t ∈ m.tags.slice, HasPrefix t entityIDTagPrefix = false) → o () = [] →
      enrichMetricSample env m "" bl d o p =
        some ({ Host := d, Name := m.name, Tags := m.tags,
                Mtype := enrichMetricType m.metricType, Value := m.value,
                SampleRate := m.sampleRate, RawValue := m.setValue },
              [Call.originTagsFunc]) := by
    intro m o hh he ho
    have h1 := lastHostValue_of_no_host _ d hh
    have h2 := lastEntityIDValue_of_no_entity _ he
    have h3 := retainedTags_of_no_prefix _ hh he
    simp [enrichMetricSample, enrichTags_eq, isBlacklisted, h1, h2, h3, originPart,
      catalogTags, expectedCalls, ho]
  refine ⟨⟨_, key m o hh he ho, rfl, rfl, rfl, rfl, rfl, rfl, rfl⟩, ?_⟩
  exact key daemonSample (fun _ => []) (by decide) (by decide) rfl

/-- Witness for `enrichMetricSample_plain`: the sample `daemon:666|h|@0.5|#...`. -/
theorem enrichMetricSample_plain_witness :
    (∃ r, enrichMetricSample sampleCatalog daemonSample "" [] "default" (fun _ => []) false
        = some r ∧
      r.1.Host = "default" ∧ r.1.Name = daemonSample.name ∧ r.1.Tags = daemonSample.tags ∧
      r.1.Mtype = enrichMetricType daemonSample.metricType ∧
      r.1.Value = daemonSample.value ∧ r.1.SampleRate = daemonSample.sampleRate ∧
      r.1.RawValue = daemonSample.setValue) ∧
    enrichMetricSample sampleCatalog daemonSample "" [] "default" (fun _ => []) false =
      some ({ Host := "default", Name := "daemon",
              Tags := ⟨["sometag1:somevalue1", "sometag2:somevalue2"]⟩,
              Mtype := .HistogramType, Value := ⟨0x4084D00000000000⟩,
              SampleRate := ⟨0x3FE0000000000000⟩, RawValue := "" },
            [Call.originTagsFunc]) :=
  enrichMetricSample_plain sampleCatalog daemonSample [] "default" (fun _ => []) false
    (by decide) (by decide) rfl

/-- C19 fails on the code: for an event and a service check without hostname override
whose tags are `host:h` and `env:prod`, `enrichEvent` and `enrichServiceCheck` return an
empty `Host` and no `Tags`, while tag enrichment of the same tags resolves the hostname
`h` and the tag list `env:prod`, `container_name:app`. -/
theorem enrichEvent_enrichServiceCheck_skip_tags :
    enrichEvent hostTaggedEvent "default" sampleOrigin false =
      { Title := "title", Text := "text", Ts := 21, Priority := .EventPriorityNormal,
        Host := "", Tags := [], AlertType := .EventAlertTypeInfo, AggregationKey := "",
        SourceTypeName := "" } ∧
    enrichServiceCheck hostTaggedCheck "default" sampleOrigin false =
      { CheckName := "agent.up", Host := "", Ts := 21, Status := .ServiceCheckOK,
        Message := "", Tags := [] } ∧
    enrichTags sampleCatalog hostTaggedEvent.tags "default" sampleOrigin false =
      some { host := "h", tags := ⟨["env:prod", "container_name:app"]⟩,
             calls := [Call.originTagsFunc] } := by
  refine ⟨by decide, by decide, by decide⟩

/-- C20: for a parsed event with a non-empty hostname override, `enrichEvent` copies the
title, text, timestamp, aggregation key and source type, takes the override as `Host`,
maps the priority low to Low and normal to Normal, and maps each alert type to the
domain alert type of the same name. In particular the parsed form of
`_e{5,4}:title|text|d:21|h:localhost|p:low|t:warning` yields title, text, 21,
localhost, Low, Warning. -/
theorem enrichEvent_with_hostname (event : dogstatsdEvent) (d : String)
    (o : Unit → List String) (p : Bool) (hh : event.hostname ≠ "") :
    (enrichEvent event d o p).Title = event.title ∧
    (enrichEvent event d o p).Text = event.text ∧
    (enrichEvent event d o p).Ts = event.timestamp ∧
    (enrichEvent event d o p).AggregationKey = event.aggregationKey ∧
    (enrichEvent event d o p).SourceTypeName = event.sourceType ∧
    (enrichEvent event d o p).Host = event.hostname ∧
    (event.priority = .priorityLow → (enrichEvent event d o p).Priority = .EventPriorityLow) ∧
    (event.priority = .priorityNormal →
      (enrichEvent event d o p).Priority = .EventPriorityNormal) ∧
    (event.alertType = .alertTypeSuccess →
      (enrichEvent event d o p).AlertType = .EventAlertTypeSuccess) ∧
    (event.alertType = .alertTypeInfo →
      (enrichEvent event d o p).AlertType = .EventAlertTypeInfo) ∧
    (event.alertType = .alertTypeWarning →
      (enrichEvent event d o p).AlertType = .EventAlertTypeWarning) ∧
    (event.alertType = .alertTypeError →
      (enrichEvent event d o p).AlertType = .EventAlertTypeError) ∧
    enrichEvent localhostEvent d o p =
      { Title := "title", Text := "text", Ts := 21, Priority := .EventPriorityLow,
        Host := "localhost", Tags := [], AlertType := .EventAlertTypeWarning,
        AggregationKey := "", SourceTypeName := "" } := by
  have hl := length_ne_zero_of_ne_empty _ hh
  refine ⟨?_, ?_, ?_, ?_, ?_, ?_, ?_, ?_, ?_, ?_, ?_, ?_, rfl⟩
  all_goals first
    | (intro h; simp [enrichEvent, hl, h, enrichEventPriority, enrichEventAlertType])
    | simp [enrichEvent, hl]

/-- Witness for `enrichEvent_with_hostname`: the event
`_e{5,4}:title|text|d:21|h:localhost|p:low|t:warning`. -/
theorem enrichEvent_with_hostname_witness :
    (enrichEvent localhostEvent "default" sampleOrigin false).Host = "localhost" ∧
    (enrichEvent localhostEvent "default" sampleOrigin false).Priority = .EventPriorityLow ∧
    (enrichEvent localhostEvent "default" sampleOrigin false).AlertType =
      .EventAlertTypeWarning ∧
    enrichEvent localhostEvent "default" sampleOrigin false =
      { Title := "title", Text := "text", Ts := 21, Priority := .EventPriorityLow,
        Host := "localhost", Tags := [], AlertType := .EventAlertTypeWarning,
        AggregationKey := "", SourceTypeName := "" } :=
  have h := enrichEvent_with_hostname localhostEvent "default" sampleOrigin false (by decide)
  ⟨h.2.2.2.2.2.1, h.2.2.2.2.2.2.1 rfl, h.2.2.2.2.2.2.2.2.2.2.1 rfl,
    h.2.2.2.2.2.2.2.2.2.2.2.2⟩

/-! ## Service checks, and the remaining cases of tag enrichment -/

/-- C21: for a parsed service check with a non-empty hostname override,
`enrichServiceCheck` copies the name, timestamp and message, takes the override as
`Host`, and maps the status ok to OK, warning to Warning, critical to Critical and
unknown to Unknown; the status mapping is injective. In particular the parsed form of
`_sc|agent.up|0|d:21|h:localhost|#tag1:test,tag2|m:this is fine` yields `agent.up`, OK,
21, `localhost` and `this is fine`. -/
theorem enrichServiceCheck_with_hostname (sc : dogstatsdServiceCheck) (d : String)
    (o : Unit → List String) (p : Bool) (hh : sc.hostname ≠ "") :
    (enrichServiceCheck sc d o p).CheckName = sc.name ∧
    (enrichServiceCheck sc d o p).Ts = sc.timestamp ∧
    (enrichServiceCheck sc d o p).Message = sc.message ∧
    (enrichServiceCheck sc d o p).Host = sc.hostname ∧
    (sc.status = .serviceCheckStatusOk →
      (enrichServiceCheck sc d o p).Status = .ServiceCheckOK) ∧
    (sc.status = .serviceCheckStatusWarning →
      (enrichServiceCheck sc d o p).Status = .ServiceCheckWarning) ∧
    (sc.status = .serviceCheckStatusCritical →
      (enrichServiceCheck sc d o p).Status = .ServiceCheckCritical) ∧
    (sc.status = .serviceCheckStatusUnknown →
      (enrichServiceCheck sc d o p).Status = .ServiceCheckUnknown) ∧
    (∀ a b : serviceCheckStatus,
      enrichServiceCheckStatus a = enrichServiceCheckStatus b → a = b) ∧
    enrichServiceCheck localhostCheck d o p =
      { CheckName := "agent.up", Host := "localhost", Ts := 21, Status := .ServiceCheckOK,
        Message := "this is fine", Tags := [] } := by
  have hl := length_ne_zero_of_ne_empty _ hh
  refine ⟨?_, ?_, ?_, ?_, ?_, ?_, ?_, ?_, ?_, rfl⟩
  · simp [enrichServiceCheck, hl]
  · simp [enrichServiceCheck, hl]
  · simp [enrichServiceCheck, hl]
  · simp [enrichServiceCheck, hl]
  · intro h; simp [enrichServiceCheck, hl, h, enrichServiceCheckStatus]
  · intro h; simp [enrichServiceCheck, hl, h, enrichServiceCheckStatus]
  · intro h; simp [enrichServiceCheck, hl, h, enrichServiceCheckStatus]
  · intro h; simp [enrichServiceCheck, hl, h, enrichServiceCheckStatus]
  · intro a b h
    cases a <;> cases b <;> simp_all [enrichServiceCheckStatus]

/-- Witness for `enrichServiceCheck_with_hostname`: the service check
`_sc|agent.up|0|d:21|h:localhost|#tag1:test,tag2|m:this is fine`. -/
theorem enrichServiceCheck_with_hostname_witness :
    (enrichServiceCheck localhostCheck "default" sampleOrigin false).Host = "localhost" ∧
    (enrichServiceCheck localhostCheck "default" sampleOrigin false).Status =
      .ServiceCheckOK ∧
    enrichServiceCheck localhostCheck "default" sampleOrigin false =
      { CheckName := "agent.up", Host := "localhost", Ts := 21, Status := .ServiceCheckOK,
        Message := "this is fine", Tags := [] } :=
  have h := enrichServiceCheck_with_hostname localhostCheck "default" sampleOrigin false
    (by decide)
  ⟨h.2.2.2.1, h.2.2.2.2.1 rfl, h.2.2.2.2.2.2.2.2.2⟩

/-- C23, as stated, fails: with entity-id precedence enabled and a captured entity id,
the origin-tag supplier is not invoked at all. -/
theorem enrichTags_supplier_not_called :
    enrichTags sampleCatalog ⟨["env:prod", "dd.internal.entity_id:pod-1"]⟩ "default"
        sampleOrigin true
      = some { host := "default"
               tags := ⟨["env:prod", "pod_name:web", "kube_namespace:default"]⟩
               calls := [Call.getTags "kubernetes_pod_uid://pod-1" 1] } ∧
    [Call.getTags "kubernetes_pod_uid://pod-1" 1].count Call.originTagsFunc = 0 := by
  refine ⟨by decide, by decide⟩

/-- C23, amended: `enrichTags` invokes the origin-tag supplier exactly once when no
entity-id value was captured or entity-id precedence is disabled, and not at all when
precedence is enabled and an entity-id value was captured; so at most once per record. -/
theorem enrichTags_supplier_calls (env : Catalog) (tags : StringSlice) (d : String)
    (o : Unit → List String) (p : Bool) :
    ∃ r, enrichTags env tags d o p = some r ∧
      r.calls.count Call.originTagsFunc =
        (if lastEntityIDValue tags.slice = "" ∨ p = false then 1 else 0) ∧
      r.calls.count Call.originTagsFunc ≤ 1 := by
  have hcount : (expectedCalls env tags.slice p).count Call.originTagsFunc =
      (if lastEntityIDValue tags.slice = "" ∨ p = false then 1 else 0) := by
    simp only [expectedCalls]
    by_cases h1 : lastEntityIDValue tags.slice = "" ∨ p = false
    · simp only [h1, if_true]
      split
      · simp
      · split <;> simp [List.count_cons]
    · simp only [h1, if_false, List.nil_append]
      split
      · simp
      · split <;> simp [List.count_cons]
  refine ⟨_, enrichTags_eq env tags d o p, hcount, ?_⟩
  simp only [hcount]
  split <;> omega

/-- C29, as stated, fails: the container holds the tag `dd.internal.entity_id:` with
an empty value, but a later entity-id tag names `pod-1`; that value is the one captured,
so with precedence enabled the supplier is not called and the resolver is. -/
theorem enrichTags_empty_entity_id_overridden :
    entityIDTagPrefix ∈ ["dd.internal.entity_id:", "env:prod", "dd.internal.entity_id:pod-1"] ∧
    enrichTags sampleCatalog
        ⟨["dd.internal.entity_id:", "env:prod", "dd.internal.entity_id:pod-1"]⟩ "default"
        sampleOrigin true
      = some { host := "default"
               tags := ⟨["env:prod", "pod_name:web", "kube_namespace:default"]⟩
               calls := [Call.getTags "kubernetes_pod_uid://pod-1" 1] } := by
  refine ⟨by decide, by decide⟩

/-- C29, amended: a tag that is exactly the prefix `dd.internal.entity_id:`, with an
empty value, is never retained. When it is the last entity-id tag of the container it
counts as no entity id captured: whatever the precedence flag, the final list is the
retained tags followed by the origin tags, the supplier is called once and the catalog
resolver is never called. -/
theorem enrichTags_empty_entity_id (env : Catalog) (tags : StringSlice) (d : String)
    (o : Unit → List String) (p : Bool) :
    ∃ r, enrichTags env tags d o p = some r ∧
      entityIDTagPrefix ∉ retainedTags tags.slice ∧
      ((tags.slice.filter fun t => HasPrefix t entityIDTagPrefix).getLast? =
          some entityIDTagPrefix →
        r.tags.slice = retainedTags tags.slice ++ o () ∧
        r.calls = [Call.originTagsFunc] ∧
        r.calls.filter Call.isGetTags = []) := by
  have hnot : entityIDTagPrefix ∉ retainedTags tags.slice := by
    intro hmem
    have hr := retainedTags_no_prefix tags.slice
    have := hr.2 _ hmem
    revert this
    decide
  refine ⟨_, enrichTags_eq env tags d o p, hnot, ?_⟩
  intro hlast
  have hv : lastEntityIDValue tags.slice = "" := by
    simp only [lastEntityIDValue, hlast]
    decide
  refine ⟨?_, ?_, ?_⟩
  · simp [originPart, catalogTags, hv]
  · simp [expectedCalls, hv]
  · simp [expectedCalls, hv, Call.isGetTags]

/-- Evaluation of `enrichTags_empty_entity_id` with precedence enabled, on a container
whose last entity-id tag has an empty value. -/
theorem enrichTags_empty_entity_id_witness :
    ∃ r, enrichTags sampleCatalog
          ⟨["dd.internal.entity_id:pod-1", "env:prod", "dd.internal.entity_id:"]⟩ "default"
          sampleOrigin true = some r ∧
      entityIDTagPrefix ∉
        retainedTags ["dd.internal.entity_id:pod-1", "env:prod", "dd.internal.entity_id:"] ∧
      r.tags.slice =
        retainedTags ["dd.internal.entity_id:pod-1", "env:prod", "dd.internal.entity_id:"] ++
          sampleOrigin () ∧
      r.calls = [Call.originTagsFunc] ∧
      r.calls.filter Call.isGetTags = [] := by
  obtain ⟨r, h, hnot, hrest⟩ := enrichTags_empty_entity_id sampleCatalog
    ⟨["dd.internal.entity_id:pod-1", "env:prod", "dd.internal.entity_id:"]⟩ "default"
    sampleOrigin true
  exact ⟨r, h, hnot, hrest (by decide)⟩

/-- C30: with entity-id precedence enabled and the captured entity-id value `none`,
`enrichTags` adds neither origin tags nor catalog tags: the final tag list is exactly
the retained tags, and neither the supplier nor the resolver is called. -/
theorem enrichTags_none_with_precedence (env : Catalog) (tags : StringSlice) (d : String)
    (o : Unit → List String)
    (hv : lastEntityIDValue tags.slice = entityIDIgnoreValue) :
    ∃ r, enrichTags env tags d o true = some r ∧
      r.tags.slice = retainedTags tags.slice ∧ r.calls = [] := by
  have hne : entityIDIgnoreValue ≠ "" := by decide
  refine ⟨_, enrichTags_eq env tags d o true, ?_, ?_⟩
  · simp [originPart, catalogTags, hv, hne]
  · simp [expectedCalls, hv, hne]

/-- Witness for `enrichTags_none_with_precedence`. -/
theorem enrichTags_none_with_precedence_witness :
    ∃ r, enrichTags sampleCatalog ⟨["host:a", "env:prod", "dd.internal.entity_id:none"]⟩
          "default" sampleOrigin true = some r ∧
      r.tags.slice = retainedTags ["host:a", "env:prod", "dd.internal.entity_id:none"] ∧
      r.calls = [] :=
  enrichTags_none_with_precedence sampleCatalog
    ⟨["host:a", "env:prod", "dd.internal.entity_id:none"]⟩ "default" sampleOrigin (by decide)

/-! ## Sequences of batcher operations -/

theorem flush_of_flushSamples (b b1 : batcher) (h : b.flushSamples = some b1) :
    ∃ b', b.flush = some b' ∧ b'.samples = b1.samples ∧ b'.samplesCount = b1.samplesCount ∧
      b'.shardedAgg = b1.shardedAgg ∧
      b'.GlobalMetricSamplePool = b1.GlobalMetricSamplePool := by
  simp only [batcher.flush, h]
  refine ⟨_, rfl, ?_, ?_, ?_, ?_⟩ <;> split <;> split <;> rfl

/-- What `flushSamples` pushes on a batcher that satisfies the invariant. -/
theorem flushSamples_push (N : Nat) (b : batcher) (hb : BatcherInv N b) :
    ∃ b', b.flushSamples = some b' ∧ BatcherInv N b' ∧
      (b'.shardedAgg = b.shardedAgg ∨
        ∃ batch, b'.shardedAgg = b.shardedAgg ++ [batch] ∧ 1 ≤ batch.length ∧
          batch.length ≤ N) := by
  obtain ⟨len_eq, count_le, pool_len⟩ := hb
  by_cases hc : 0 < b.samplesCount
  · refine ⟨_, flushSamples_pos b hc (by omega), ⟨pool_len _, Nat.zero_le _, pool_len⟩,
      Or.inr ⟨b.samples.take b.samplesCount, rfl, ?_, ?_⟩⟩
    · simp only [List.length_take]; omega
    · simp only [List.length_take]; omega
  · exact ⟨b, flushSamples_zero b (by omega), ⟨len_eq, count_le, pool_len⟩, Or.inl rfl⟩

/-- What `appendSample` pushes and writes on a batcher that satisfies the invariant. -/
theorem appendSample_push (N : Nat) (hN : 1 ≤ N) (b : batcher) (hb : BatcherInv N b)
    (x : MetricSample) :
    ∃ b', b.appendSample x = some b' ∧ BatcherInv N b' ∧
      b'.samples[if b.samplesCount = b.samples.length then 0 else b.samplesCount]? = some x ∧
      (b'.shardedAgg = b.shardedAgg ∨
        ∃ batch, b'.shardedAgg = b.shardedAgg ++ [batch] ∧ batch.length = N) := by
  obtain ⟨len_eq, count_le, pool_len⟩ := hb
  by_cases hfull : b.samplesCount = b.samples.length
  · have hfresh : 0 < b.GlobalMetricSamplePool.GetBatch.1.length := by
      simp only [MetricSamplePool.GetBatch, pool_len]; omega
    refine ⟨_, appendSample_full b x hfull (by omega) hfresh, ⟨?_, ?_, pool_len⟩, ?_,
      Or.inr ⟨b.samples, rfl, len_eq⟩⟩
    · simp [MetricSamplePool.GetBatch, pool_len]
    · simpa using hN
    · simp [hfull, List.getElem?_set, hfresh]
  · have hlt : b.samplesCount < b.samples.length := by omega
    refine ⟨_, appendSample_notFull b x hlt, ⟨by simp [len_eq], by simp; omega, pool_len⟩, ?_,
      Or.inl rfl⟩
    simp [hfull, List.getElem?_set, hlt]

theorem apply_inv (N : Nat) (hN : 1 ≤ N) (b : batcher) (hb : BatcherInv N b)
    (hw : b.batchesWithin N) (op : BatcherOp) :
    ∃ b', b.apply op = some b' ∧ BatcherInv N b' ∧ b'.batchesWithin N := by
  have extend : ∀ b' : batcher,
      (b'.shardedAgg = b.shardedAgg ∨
        ∃ batch, b'.shardedAgg = b.shardedAgg ++ [batch] ∧ 1 ≤ batch.length ∧
          batch.length ≤ N) → b'.batchesWithin N := by
    intro b' h batch hmem
    rcases h with h | ⟨new, h, h1, h2⟩
    · rw [h] at hmem; exact hw batch hmem
    · rw [h, List.mem_append, List.mem_singleton] at hmem
      rcases hmem with hmem | rfl
      · exact hw batch hmem
      · exact ⟨h1, h2⟩
  cases op with
  | appendSample x =>
    obtain ⟨b', h, hinv, -, hp⟩ := appendSample_push N hN b hb x
    refine ⟨b', h, hinv, extend b' ?_⟩
    rcases hp with hp | ⟨batch, hp, hl⟩
    · exact Or.inl hp
    · exact Or.inr ⟨batch, hp, by omega, by omega⟩
  | appendEvent e =>
    exact ⟨_, rfl, ⟨hb.len_eq, hb.count_le, hb.pool_len⟩, extend _ (Or.inl rfl)⟩
  | appendServiceCheck c =>
    exact ⟨_, rfl, ⟨hb.len_eq, hb.count_le, hb.pool_len⟩, extend _ (Or.inl rfl)⟩
  | flushSamples =>
    obtain ⟨b', h, hinv, hp⟩ := flushSamples_push N b hb
    exact ⟨b', h, hinv, extend b' hp⟩
  | flush =>
    obtain ⟨b1, h, hinv, hp⟩ := flushSamples_push N b hb
    obtain ⟨b', hf, hs, hc, ha, hpool⟩ := flush_of_flushSamples b b1 h
    refine ⟨b', hf, ⟨?_, ?_, ?_⟩, extend b' (by rw [ha]; exact hp)⟩
    · rw [hs]; exact hinv.len_eq
    · rw [hc]; exact hinv.count_le
    · rw [hpool]; exact hinv.pool_len

theorem run_inv (N : Nat) (hN : 1 ≤ N) (ops : List BatcherOp) :
    ∀ b : batcher, BatcherInv N b → b.batchesWithin N →
      ∃ b', b.run ops = some b' ∧ BatcherInv N b' ∧ b'.batchesWithin N := by
  induction ops with
  | nil =>
    intro b hb hw
    exact ⟨b, by simp [batcher.run], hb, hw⟩
  | cons op ops ih =>
    intro b hb hw
    obtain ⟨b1, h1, hinv1, hw1⟩ := apply_inv N hN b hb hw op
    obtain ⟨b2, h2, hinv2, hw2⟩ := ih b1 hinv1 hw1
    refine ⟨b2, ?_, hinv2, hw2⟩
    simp only [batcher.run] at h2 ⊢
    simp [List.foldlM_cons, h1, h2]

theorem newBatcher_batchesWithin (pool : MetricSamplePool) (N : Nat) :
    (newBatcher pool).batchesWithin N := by
  intro batch hmem
  simp [newBatcher] at hmem

/-- C22, as stated, fails: on a pool whose buffers have length zero `newBatcher` reports
no error and returns a batcher, with an empty buffer and `samplesCount = 0`. -/
theorem newBatcher_accepts_empty_pool :
    (newBatcher emptyPool).samples = [] ∧ (newBatcher emptyPool).samplesCount = 0 ∧
    (newBatcher emptyPool).events = [] ∧ (newBatcher emptyPool).serviceChecks = [] ∧
    (newBatcher emptyPool).shardedAgg = [] ∧
    (newBatcher emptyPool).GlobalMetricSamplePool.taken = 1 := by
  refine ⟨by decide, by decide, by decide, by decide, by decide, by decide⟩

/-- C22, amended: constructing the batcher never fails. For every pool, also one whose
buffers have length zero, `newBatcher` returns a batcher that holds the next buffer of
the pool, with `samplesCount = 0` and nothing buffered, pushed or sent. A batch size of
zero is not detected at construction: it only shows at the first `appendSample`, whose
store at index 0 is out of range. -/
theorem newBatcher_never_fails (pool : MetricSamplePool) (x : MetricSample) :
    (newBatcher pool).samples = pool.batches pool.taken ∧
    (newBatcher pool).samplesCount = 0 ∧
    (newBatcher pool).events = [] ∧ (newBatcher pool).serviceChecks = [] ∧
    (newBatcher pool).shardedAgg = [] ∧ (newBatcher pool).choutEvents = [] ∧
    (newBatcher pool).choutServiceChecks = [] ∧
    (newBatcher pool).GlobalMetricSamplePool.taken = pool.taken + 1 ∧
    (newBatcher pool).GlobalMetricSamplePool.batches = pool.batches ∧
    (pool.batches pool.taken = [] → (newBatcher pool).appendSample x = none) := by
  refine ⟨rfl, rfl, rfl, rfl, rfl, rfl, rfl, rfl, rfl, ?_⟩
  intro h
  simp [batcher.appendSample, batcher.flushSamples, newBatcher, MetricSamplePool.GetBatch, h]

/-- C26: if every pooled buffer has length `N ≥ 1`, then after construction and after
any sequence of `appendSample`, `appendEvent`, `appendServiceCheck`, `flushSamples` and
`flush` no operation has panicked and `samplesCount ≤ len(samples) = N`; a further
`appendSample` then stores its sample at an index strictly below `len(samples)`. -/
theorem batcher_invariant (pool : MetricSamplePool) (N : Nat) (hN : 1 ≤ N)
    (hpool : ∀ k, (pool.batches k).length = N) (ops : List BatcherOp) (x : MetricSample) :
    ∃ b b', (newBatcher pool).run ops = some b ∧
      b.samplesCount ≤ b.samples.length ∧ b.samples.length = N ∧
      b.appendSample x = some b' ∧
      (if b.samplesCount = b.samples.length then 0 else b.samplesCount) < b'.samples.length ∧
      b'.samples[if b.samplesCount = b.samples.length then 0 else b.samplesCount]? = some x ∧
      b'.samplesCount ≤ b'.samples.length ∧ b'.samples.length = N := by
  obtain ⟨b, hrun, hinv, -⟩ := run_inv N hN ops (newBatcher pool)
    (newBatcher_inv pool N hpool) (newBatcher_batchesWithin pool N)
  obtain ⟨b', happ, hinv', hx, -⟩ := appendSample_push N hN b hinv x
  refine ⟨b, b', hrun, ?_, hinv.len_eq, happ, ?_, hx, ?_, hinv'.len_eq⟩
  · rw [hinv.len_eq]; exact hinv.count_le
  · have h1 := hinv.len_eq
    have h2 := hinv.count_le
    have h3 := hinv'.len_eq
    split <;> omega
  · rw [hinv'.len_eq]; exact hinv'.count_le

/-- Witness for `batcher_invariant`: a mixed sequence of operations on buffers of
capacity two. -/
theorem batcher_invariant_witness :
    ∃ b b', (newBatcher samplePool).run
          [.appendSample (sampleNamed "a"), .appendEvent (eventTitled "e"),
           .appendSample (sampleNamed "b"), .flushSamples, .appendSample (sampleNamed "c"),
           .appendServiceCheck (checkNamed "s"), .flush] = some b ∧
      b.samplesCount ≤ b.samples.length ∧ b.samples.length = 2 ∧
      b.appendSample (sampleNamed "d") = some b' ∧
      (if b.samplesCount = b.samples.length then 0 else b.samplesCount) < b'.samples.length ∧
      b'.samples[if b.samplesCount = b.samples.length then 0 else b.samplesCount]? =
        some (sampleNamed "d") ∧
      b'.samplesCount ≤ b'.samples.length ∧ b'.samples.length = 2 :=
  batcher_invariant samplePool 2 (by decide) (fun _ => rfl) _ _

/-- C27: on buffers of capacity `N ≥ 1`, after any sequence of batcher operations every
batch the sink has received has between 1 and `N` samples. A further `appendSample`
pushes nothing or one batch of exactly `N` samples, and `appendEvent` and
`appendServiceCheck` push nothing, so a batch shorter than `N` can only come from
`flushSamples` or `flush`. -/
theorem batcher_batch_sizes (pool : MetricSamplePool) (N : Nat) (hN : 1 ≤ N)
    (hpool : ∀ k, (pool.batches k).length = N) (ops : List BatcherOp) (x : MetricSample)
    (e : Event) (c : ServiceCheck) :
    ∃ b b', (newBatcher pool).run ops = some b ∧
      (∀ batch ∈ b.shardedAgg, 1 ≤ batch.length ∧ batch.length ≤ N) ∧
      b.appendSample x = some b' ∧
      (b'.shardedAgg = b.shardedAgg ∨
        ∃ batch, b'.shardedAgg = b.shardedAgg ++ [batch] ∧ batch.length = N) ∧
      (b.appendEvent e).shardedAgg = b.shardedAgg ∧
      (b.appendServiceCheck c).shardedAgg = b.shardedAgg := by
  obtain ⟨b, hrun, hinv, hw⟩ := run_inv N hN ops (newBatcher pool)
    (newBatcher_inv pool N hpool) (newBatcher_batchesWithin pool N)
  obtain ⟨b', happ, -, -, hp⟩ := appendSample_push N hN b hinv x
  exact ⟨b, b', hrun, hw, happ, hp, rfl, rfl⟩

/-- Witness for `batcher_batch_sizes`: three appends and a flush on buffers of capacity
two push a full batch and then a batch of one. -/
theorem batcher_batch_sizes_witness :
    ((newBatcher samplePool).run
        [.appendSample (sampleNamed "a"), .appendSample (sampleNamed "b"),
         .appendSample (sampleNamed "c"), .flush]).map (fun b => b.shardedAgg) =
      some [[sampleNamed "a", sampleNamed "b"], [sampleNamed "c"]] ∧
    ∃ b b', (newBatcher samplePool).run
          [.appendSample (sampleNamed "a"), .appendSample (sampleNamed "b"),
           .appendSample (sampleNamed "c"), .flush] = some b ∧
      (∀ batch ∈ b.shardedAgg, 1 ≤ batch.length ∧ batch.length ≤ 2) ∧
      b.appendSample (sampleNamed "d") = some b' ∧
      (b'.shardedAgg = b.shardedAgg ∨
        ∃ batch, b'.shardedAgg = b.shardedAgg ++ [batch] ∧ batch.length = 2) ∧
      (b.appendEvent (eventTitled "e")).shardedAgg = b.shardedAgg ∧
      (b.appendServiceCheck (checkNamed "s")).shardedAgg = b.shardedAgg :=
  ⟨by decide, batcher_batch_sizes samplePool 2 (by decide) (fun _ => rfl) _ _ _ _⟩

/-! ## Lemmas on `convertTags` -/

theorem convertTagsScan_concat (env : Catalog) (xs : List String) (t d : String) :
    convertTagsScan env (xs ++ [t]) d =
      convertTagsScanStep env (convertTagsScan env xs d) t := by
  simp [convertTagsScan, List.foldl_append]

theorem convertTagsScanStep_host (env : Catalog) (st : ConvertScan) (t : String) :
    (convertTagsScanStep env st t).host =
      if HasPrefix t hostTagPrefix then sliceFrom t hostTagPrefix.length else st.host := by
  unfold convertTagsScanStep
  by_cases hh : HasPrefix t hostTagPrefix = true
  · simp [hh]
  · by_cases he : HasPrefix t entityIDTagPrefix = true
    · rcases hg : env.getTags
          (env.KubePodTaggerEntityPrefix ++ sliceFrom t entityIDTagPrefix.length)
          env.DogstatsdCardinality with ⟨ts, _ | err⟩ <;> simp [hh, he, hg]
    · simp [hh, he]

theorem convertTagsScanStep_needReslice (env : Catalog) (st : ConvertScan) (t : String) :
    (convertTagsScanStep env st t).needReslice =
      (st.needReslice || HasPrefix t hostTagPrefix || HasPrefix t entityIDTagPrefix) := by
  unfold convertTagsScanStep
  by_cases hh : HasPrefix t hostTagPrefix = true
  · simp [hh]
  · by_cases he : HasPrefix t entityIDTagPrefix = true
    · rcases hg : env.getTags
          (env.KubePodTaggerEntityPrefix ++ sliceFrom t entityIDTagPrefix.length)
          env.DogstatsdCardinality with ⟨ts, _ | err⟩ <;> simp [hh, he, hg]
    · simp [hh, he]

theorem convertTagsScanStep_extraTags (env : Catalog) (st : ConvertScan) (t : String)
    (he : HasPrefix t entityIDTagPrefix = false) :
    (convertTagsScanStep env st t).extraTags = st.extraTags := by
  unfold convertTagsScanStep
  by_cases hh : HasPrefix t hostTagPrefix = true
  · simp [hh]
  · simp [hh, he]

theorem convertTagsScan_host (env : Catalog) (xs : List String) (d : String) :
    (convertTagsScan env xs d).host = lastHostValue xs d := by
  induction xs using List.reverseRecOn with
  | nil => simp [convertTagsScan, lastHostValue]
  | append_singleton xs t ih =>
    rw [convertTagsScan_concat, lastHostValue_concat, convertTagsScanStep_host, ih]

theorem convertTagsScan_no_reslice (env : Catalog) (xs : List String) (d : String) :
    (convertTagsScan env xs d).needReslice = false →
      (convertTagsScan env xs d).extraTags = [] ∧ retainedTags xs = xs := by
  induction xs using List.reverseRecOn with
  | nil => intro _; simp [convertTagsScan, retainedTags]
  | append_singleton xs t ih =>
    rw [convertTagsScan_concat, retainedTags_append, convertTagsScanStep_needReslice]
    intro h
    simp only [Bool.or_eq_false_iff] at h
    obtain ⟨⟨h0, hh⟩, he⟩ := h
    obtain ⟨h1, h2⟩ := ih h0
    rw [convertTagsScanStep_extraTags env _ t he, h2]
    exact ⟨h1, by simp [retainedTags, hh, he]⟩

theorem convertTagsScan_no_entity (env : Catalog) (xs : List String) (d : String)
    (h : ∀ t ∈ xs, HasPrefix t entityIDTagPrefix = false) :
    (convertTagsScan env xs d).extraTags = [] := by
  induction xs using List.reverseRecOn with
  | nil => simp [convertTagsScan]
  | append_singleton xs t ih =>
    rw [convertTagsScan_concat, convertTagsScanStep_extraTags env _ t (h t (by simp))]
    exact ih (fun u hu => h u (by simp [hu]))

/-- Invariant of the second loop of `convertTags` after `k` iterations: the caller's
array is untouched and the first `tagsCount` slots of the fresh array hold the retained
tags among the first `k` tags. -/
theorem convertTagsCopyUpTo_inv (caller : List String) (n size k : Nat)
    (hn : n ≤ caller.length) (hsize : n ≤ size) (hk : k ≤ n) :
    ∃ m c, convertTagsCopyUpTo ⟨.caller, n⟩ ⟨.fresh, size⟩
          { caller := caller, fresh := List.replicate size "" } k = some (m, c) ∧
      m.caller = caller ∧ m.fresh.length = size ∧ c ≤ k ∧
      m.fresh.take c = retainedTags ((caller.take n).take k) := by
  induction k with
  | zero =>
    exact ⟨{ caller := caller, fresh := List.replicate size "" }, 0,
      by simp [convertTagsCopyUpTo], rfl, by simp, Nat.le_refl _, by simp [retainedTags]⟩
  | succ k ih =>
    obtain ⟨m, c, hrun, hcaller, hlen, hc, hkept⟩ := ih (by omega)
    have hklt : k < (caller.take n).length := by simp; omega
    have hread : (m.elems ⟨.caller, n⟩)[k]? = some (caller.take n)[k] := by
      simp only [TagMemory.elems, TagMemory.array, hcaller]
      exact List.getElem?_eq_getElem hklt
    have htake : (caller.take n).take (k + 1) = (caller.take n).take k ++ [(caller.take n)[k]] := by
      rw [List.take_succ, List.getElem?_eq_getElem hklt]; rfl
    generalize (caller.take n)[k] = t at hread htake
    have hstep : convertTagsCopyUpTo ⟨.caller, n⟩ ⟨.fresh, size⟩
          { caller := caller, fresh := List.replicate size "" } (k + 1) =
        convertTagsCopyStep ⟨.caller, n⟩ ⟨.fresh, size⟩ (m, c) k := by
      unfold convertTagsCopyUpTo at hrun ⊢
      rw [List.range_succ, List.foldlM_append, hrun]
      simp
    rw [hstep, htake, retainedTags_append]
    by_cases hkeep : (!HasPrefix t hostTagPrefix && !HasPrefix t entityIDTagPrefix) = true
    · have hcl : c < size := by omega
      refine ⟨m.setArray .fresh (m.fresh.set c t), c + 1, ?_, ?_, ?_, by omega, ?_⟩
      · simp [convertTagsCopyStep, hread, hkeep, TagMemory.store, hcl, TagMemory.array]
      · simp [TagMemory.setArray, hcaller]
      · simp [TagMemory.setArray, hlen]
      · simp only [TagMemory.setArray]
        rw [take_succ_set _ _ _ (by omega), hkept]
        simp [retainedTags, hkeep]
    · refine ⟨m, c, ?_, hcaller, hlen, by omega, ?_⟩
      · simp [convertTagsCopyStep, hread, hkeep]
      · rw [hkept]
        simp [retainedTags, hkeep]

/-- Closed form of `convertTags` on a well-formed slice `caller[:n]`. -/
theorem convertTags_spec (env : Catalog) (caller : List String) (n : Nat) (d : String)
    (hn : n ≤ caller.length) :
    ∃ r, convertTags env caller n d = some r ∧ r.mem.caller = caller ∧
      r.calls = (if n = 0 then [] else (convertTagsScan env (caller.take n) d).calls) ∧
      r.host = lastHostValue (caller.take n) d ∧
      r.tags = retainedTags (caller.take n) ++
        (convertTagsScan env (caller.take n) d).extraTags ∧
      ((n = 0 ∧ r.tagsList = none ∧ r.mem.fresh = []) ∨
       ((convertTagsScan env (caller.take n) d).needReslice = false ∧
          r.tagsList = some ⟨.caller, n⟩ ∧ r.mem.fresh = []) ∨
       ((convertTagsScan env (caller.take n) d).needReslice = true ∧
          ∃ k, r.tagsList = some ⟨.fresh, k⟩)) := by
  by_cases h0 : n = 0
  · subst h0
    have hres : convertTags env caller 0 d =
        some { mem := { caller := caller, fresh := [] }, tagsList := none, host := d,
               calls := [] } := by
      simp [convertTags]
    refine ⟨_, hres, rfl, by simp, ?_, ?_, Or.inl ⟨rfl, rfl, rfl⟩⟩
    · simp [lastHostValue]
    · simp [ConvertTagsResult.tags, retainedTags, convertTagsScan]
  · by_cases hr : (convertTagsScan env (caller.take n) d).needReslice = true
    · obtain ⟨m, c, hrun, hcaller, hlen, hc, hkept⟩ := convertTagsCopyUpTo_inv caller n
        (n + (convertTagsScan env (caller.take n) d).extraTags.length) n hn (by omega)
        (Nat.le_refl _)
      have hfull : (caller.take n).take n = caller.take n := by
        rw [List.take_take]; simp
      rw [hfull] at hkept
      have hcle : c ≤ n + (convertTagsScan env (caller.take n) d).extraTags.length := by omega
      have hfit : c + (convertTagsScan env (caller.take n) d).extraTags.length ≤
          m.fresh.length := by omega
      have hres : convertTags env caller n d =
          some { mem := (m.append ⟨.fresh, c⟩
                   (convertTagsScan env (caller.take n) d).extraTags).1
                 tagsList := some (m.append ⟨.fresh, c⟩
                   (convertTagsScan env (caller.take n) d).extraTags).2
                 host := (convertTagsScan env (caller.take n) d).host
                 calls := (convertTagsScan env (caller.take n) d).calls } := by
        simp [convertTags, h0, TagMemory.elems, TagMemory.array, hr, hrun, hcle]
      refine ⟨_, hres, ?_, ?_, ?_, ?_, Or.inr (Or.inr ⟨hr, c +
        (convertTagsScan env (caller.take n) d).extraTags.length, ?_⟩)⟩
      · simp [TagMemory.append, TagMemory.array, hfit, TagMemory.setArray, hcaller]
      · simp [h0]
      · exact convertTagsScan_host env _ d
      · have hclen : (List.take c m.fresh).length = c := by
          simp only [List.length_take]; omega
        simp only [ConvertTagsResult.tags, TagMemory.append, TagMemory.array, hfit, if_true,
          TagMemory.elems, TagMemory.setArray]
        rw [← hkept, List.append_assoc, List.take_append_eq_append_take, hclen]
        simp
      · simp [TagMemory.append, TagMemory.array, hfit]
    · have hr' : (convertTagsScan env (caller.take n) d).needReslice = false := by
        simpa using hr
      obtain ⟨hextra, hret⟩ := convertTagsScan_no_reslice env _ d hr'
      have hres : convertTags env caller n d =
          some { mem := { caller := caller, fresh := [] }
                 tagsList := some ⟨.caller, n⟩
                 host := (convertTagsScan env (caller.take n) d).host
                 calls := (convertTagsScan env (caller.take n) d).calls } := by
        simp [convertTags, h0, TagMemory.elems, TagMemory.array, hr', TagMemory.append, hextra,
          hn, TagMemory.setArray]
      refine ⟨_, hres, rfl, by simp [h0], convertTagsScan_host env _ d, ?_,
        Or.inr (Or.inl ⟨hr', rfl, rfl⟩)⟩
      simp [ConvertTagsResult.tags, TagMemory.array, hextra, TagMemory.elems, hret]

/-! ## `convertTags`: the claims -/

/-- C24: `convertTags` never changes the content of its input: after the call the array
behind the caller's `tags` slice, and so every element of that slice, is the same as
before. The returned slice is either the input itself with nothing appended (`nil` when
the input is empty), no array having been allocated, or a slice of the array the call
allocated. -/
theorem convertTags_leaves_input (env : Catalog) (caller : List String) (n : Nat)
    (d : String) (hn : n ≤ caller.length) :
    ∃ r, convertTags env caller n d = some r ∧
      r.mem.caller = caller ∧
      r.mem.elems ⟨.caller, n⟩ = caller.take n ∧
      (((r.tagsList = some ⟨.caller, n⟩ ∨ (n = 0 ∧ r.tagsList = none)) ∧
          r.mem.fresh = [] ∧ r.tags = caller.take n) ∨
        ∃ k, r.tagsList = some ⟨.fresh, k⟩) := by
  obtain ⟨r, hres, hcaller, -, -, htags, hcase⟩ := convertTags_spec env caller n d hn
  refine ⟨r, hres, hcaller, by simp [TagMemory.elems, TagMemory.array, hcaller], ?_⟩
  rcases hcase with ⟨h0, hnil, hfresh⟩ | ⟨hr, hlist, hfresh⟩ | ⟨-, k, hk⟩
  · subst h0
    refine Or.inl ⟨Or.inr ⟨rfl, hnil⟩, hfresh, ?_⟩
    simp [ConvertTagsResult.tags, hnil]
  · obtain ⟨hextra, hret⟩ := convertTagsScan_no_reslice env _ d hr
    refine Or.inl ⟨Or.inl hlist, hfresh, ?_⟩
    rw [htags, hextra, hret]
    simp
  · exact Or.inr ⟨k, hk⟩

/-- Witness for `convertTags_leaves_input`: a slice of five tags over an array of six,
with `host:` tags and an entity-id tag the catalog resolves. -/
theorem convertTags_leaves_input_witness :
    convertTags sampleCatalog
        ["host:a", "env:prod", "dd.internal.entity_id:pod-1", "host:b", "x", "spare"] 5
        "default" =
      some { mem := { caller := ["host:a", "env:prod", "dd.internal.entity_id:pod-1", "host:b",
                                 "x", "spare"]
                      fresh := ["env:prod", "x", "pod_name:web", "kube_namespace:default",
                                "", "", ""] }
             tagsList := some ⟨.fresh, 4⟩
             host := "b"
             calls := [Call.getTags "kubernetes_pod_uid://pod-1" 1] } ∧
    ∃ r, convertTags sampleCatalog
          ["host:a", "env:prod", "dd.internal.entity_id:pod-1", "host:b", "x", "spare"] 5
          "default" = some r ∧
      r.mem.caller =
        ["host:a", "env:prod", "dd.internal.entity_id:pod-1", "host:b", "x", "spare"] ∧
      r.mem.elems ⟨.caller, 5⟩ =
        ["host:a", "env:prod", "dd.internal.entity_id:pod-1", "host:b", "x", "spare"].take 5 ∧
      (((r.tagsList = some ⟨.caller, 5⟩ ∨ (5 = 0 ∧ r.tagsList = none)) ∧
          r.mem.fresh = [] ∧
          r.tags =
            ["host:a", "env:prod", "dd.internal.entity_id:pod-1", "host:b", "x", "spare"].take
              5) ∨
        ∃ k, r.tagsList = some ⟨.fresh, k⟩) :=
  ⟨by decide, convertTags_leaves_input sampleCatalog
    ["host:a", "env:prod", "dd.internal.entity_id:pod-1", "host:b", "x", "spare"] 5 "default"
    (by decide)⟩

/-- C28: for a tag list without `dd.internal.entity_id:` tag, `enrichTags`, run with a
supplier that returns no tags and either precedence setting, and `convertTags` return
the same hostname and the same final tag sequence, the `nil` that `convertTags` returns
for an empty list counting as the empty sequence. -/
theorem convertTags_agrees_with_enrichTags (env : Catalog) (tags : List String) (d : String)
    (o : Unit → List String) (p : Bool)
    (hne : ∀ t ∈ tags, HasPrefix t entityIDTagPrefix = false) (ho : o () = []) :
    ∃ r e, convertTags env tags tags.length d = some r ∧
      enrichTags env ⟨tags⟩ d o p = some e ∧
      r.host = e.host ∧ r.tags = e.tags.slice := by
  obtain ⟨r, hres, -, -, hhost, htags, -⟩ :=
    convertTags_spec env tags tags.length d (Nat.le_refl _)
  rw [List.take_length] at hhost htags
  refine ⟨r, _, hres, enrichTags_eq env ⟨tags⟩ d o p, hhost, ?_⟩
  rw [htags, convertTagsScan_no_entity env tags d hne]
  have hv := lastEntityIDValue_of_no_entity tags hne
  simp [originPart, catalogTags, hv, ho]

/-- Witness for `convertTags_agrees_with_enrichTags`: two `host:` tags and a plain tag. -/
theorem convertTags_agrees_with_enrichTags_witness :
    ∃ r e, convertTags sampleCatalog ["host:a", "env:prod", "host:b"]
          ["host:a", "env:prod", "host:b"].length "default" = some r ∧
      enrichTags sampleCatalog ⟨["host:a", "env:prod", "host:b"]⟩ "default" (fun _ => [])
          true = some e ∧
      r.host = e.host ∧ r.tags = e.tags.slice :=
  convertTags_agrees_with_enrichTags sampleCatalog ["host:a", "env:prod", "host:b"] "default"
    (fun _ => []) true (by decide) rfl

/-! ## `parseServiceCheck`: the claim -/

theorem parseServiceCheckStatus_none_of_not_int (rawStatus : String)
    (h : parseInt rawStatus = none) : parseServiceCheckStatus rawStatus = none := by
  simp [parseServiceCheckStatus, h]

theorem parseServiceCheckStatus_none_of_out_of_range (rawStatus : String) (k : Int)
    (h : parseInt rawStatus = some k) (hk : k < 0 ∨ 3 < k) :
    parseServiceCheckStatus rawStatus = none := by
  unfold parseServiceCheckStatus
  rw [h]
  split
  · next heq => simp only [Option.some.injEq] at heq; omega
  · next heq => simp only [Option.some.injEq] at heq; omega
  · next heq => simp only [Option.some.injEq] at heq; omega
  · next heq => simp only [Option.some.injEq] at heq; omega
  · rfl

theorem parseServiceCheckStatus_some_of_in_range (rawStatus : String) (k : Int)
    (h : parseInt rawStatus = some k) (hk : 0 ≤ k ∧ k ≤ 3) :
    ∃ status, parseServiceCheckStatus rawStatus = some status := by
  unfold parseServiceCheckStatus
  rw [h]
  have : k = 0 ∨ k = 1 ∨ k = 2 ∨ k = 3 := by omega
  rcases this with rfl | rfl | rfl | rfl <;> exact ⟨_, rfl⟩

/-- C25: `parseServiceCheck` returns an error, and no record, when the name or the
status segment is missing, when the name is empty, and when the status is not an
integer (the empty status included) or is an integer outside {0,1,2,3}; so do the
messages `_sc|agent.up`, `_sc|agent.up|`, `_sc||`, `_sc|`, `_sc|agent.up|OK` and
`_sc|agent.up|21`. After a non-empty name and a status in {0,1,2,3} no metadata segment
makes the parse fail: `d:some_time` and `u:unknown` are accepted and leave the record
as it is without them. -/
theorem parseServiceCheck_errors :
    (∀ segs : List String, segs.length < 3 →
      isParseError (parseServiceCheckSegments segs) = true) ∧
    (∀ (rawStatus : String) (metadata : List String),
      isParseError (parseServiceCheckSegments ("_sc" :: "" :: rawStatus :: metadata)) = true) ∧
    (∀ (name rawStatus : String) (metadata : List String), parseInt rawStatus = none →
      isParseError (parseServiceCheckSegments ("_sc" :: name :: rawStatus :: metadata)) = true) ∧
    (∀ (name rawStatus : String) (metadata : List String) (k : Int),
      parseInt rawStatus = some k → (k < 0 ∨ 3 < k) →
      isParseError (parseServiceCheckSegments ("_sc" :: name :: rawStatus :: metadata)) = true) ∧
    (∀ (name rawStatus : String) (metadata : List String) (k : Int),
      name ≠ "" → parseInt rawStatus = some k → (0 ≤ k ∧ k ≤ 3) →
      isParseError (parseServiceCheckSegments ("_sc" :: name :: rawStatus :: metadata)) = false) ∧
    isParseError (parseServiceCheck "_sc|agent.up") = true ∧
    isParseError (parseServiceCheck "_sc|agent.up|") = true ∧
    isParseError (parseServiceCheck "_sc||") = true ∧
    isParseError (parseServiceCheck "_sc|") = true ∧
    isParseError (parseServiceCheck "_sc|agent.up|OK") = true ∧
    isParseError (parseServiceCheck "_sc|agent.up|21") = true ∧
    isParseError (parseServiceCheck "_sc|agent.up|0|d:some_time") = false ∧
    isParseError (parseServiceCheck "_sc|agent.up|0|u:unknown") = false ∧
    parseServiceCheck "_sc|agent.up|0|d:some_time" = parseServiceCheck "_sc|agent.up|0" ∧
    parseServiceCheck "_sc|agent.up|0|u:unknown" = parseServiceCheck "_sc|agent.up|0" := by
  refine ⟨?_, ?_, ?_, ?_, ?_, by decide, by decide, by decide, by decide, by decide,
    by decide, by decide, by decide, by rfl, by rfl⟩
  · intro segs hlen
    match segs, hlen with
    | [], _ => rfl
    | [a], _ =>
      unfold parseServiceCheckSegments
      split
      · next heq => simp at heq
      · rfl
    | [a, b], _ =>
      unfold parseServiceCheckSegments
      split
      · next heq => simp at heq
      · rfl
    | _ :: _ :: _ :: _, h => simp at h; omega
  · intro rawStatus metadata
    simp [parseServiceCheckSegments, isParseError]
  · intro name rawStatus metadata h
    have hs := parseServiceCheckStatus_none_of_not_int rawStatus h
    by_cases hn : name = ""
    · simp [parseServiceCheckSegments, isParseError, hn]
    · simp [parseServiceCheckSegments, isParseError, hn, hs]
  · intro name rawStatus metadata k h hk
    have hs := parseServiceCheckStatus_none_of_out_of_range rawStatus k h hk
    by_cases hn : name = ""
    · simp [parseServiceCheckSegments, isParseError, hn]
    · simp [parseServiceCheckSegments, isParseError, hn, hs]
  · intro name rawStatus metadata k hn h hk
    obtain ⟨status, hs⟩ := parseServiceCheckStatus_some_of_in_range rawStatus k h hk
    simp [parseServiceCheckSegments, isParseError, hn, hs]

end Dogstatsd
